import Mathlib

/-!
Verification development for the invoice-automation core:
the field-extraction heuristics (src/preprocessing/field_extraction.py),
the anomaly rule engine and duplicate tracker
(src/models/anomaly_detection.py) and the rule-based document classifier
(src/models/doc_classifier.py).

The Python code is shallowly embedded: Python floats are modelled as
exact rationals, Python strings as Lean strings (lists of Unicode
code points), and each Python regular expression as an abstract syntax
tree interpreted by a small backtracking matcher whose result order
mirrors Python's leftmost / greedy / lazy preference order.  Whitespace
and case conversion use the ASCII-centred character model; the shape of
every function follows the corresponding Python definition.
-/

set_option maxRecDepth 8000

/- Batteries marks the rational operations irreducible for the
elaborator; concrete evaluation inside proofs needs them unfolded. -/
set_option allowUnsafeReducibility true
attribute [local semireducible] Rat.add Rat.mul Rat.inv Rat.sub Rat.ofScientific

/-! ## Character model (Python whitespace, digits, word characters) -/

/-- Code points treated as whitespace by Python's str.strip and the regex
class \s (ASCII whitespace plus the common Unicode space characters). -/
def isPySpace (c : Char) : Bool :=
  c.toNat ∈ [9, 10, 11, 12, 13, 28, 29, 30, 31, 32, 133, 160, 5760,
    8192, 8193, 8194, 8195, 8196, 8197, 8198, 8199, 8200, 8201, 8202,
    8232, 8233, 8239, 8287, 12288]

/-- Code points at which Python's str.splitlines breaks a line. -/
def isLineBreak (c : Char) : Bool :=
  c.toNat ∈ [10, 11, 12, 13, 28, 29, 30, 133, 8232, 8233]

/-- ASCII decimal digit (model of the regex class \d). -/
def isDig (c : Char) : Bool := '0' ≤ c ∧ c ≤ '9'

/-- ASCII word character (model of the regex class \w used by \b). -/
def isWordChar (c : Char) : Bool :=
  ('A' ≤ c ∧ c ≤ 'Z') ∨ ('a' ≤ c ∧ c ≤ 'z') ∨ isDig c ∨ c = '_'

/-- ASCII lower-casing of a single character (model of str.lower). -/
def charLower (c : Char) : Char :=
  if 'A' ≤ c ∧ c ≤ 'Z' then Char.ofNat (c.toNat + 32) else c

/-- ASCII upper-casing of a single character. -/
def charUpper (c : Char) : Char :=
  if 'a' ≤ c ∧ c ≤ 'z' then Char.ofNat (c.toNat - 32) else c

/-- Python str.strip: drop whitespace from both ends of a character list. -/
def trimChars (l : List Char) : List Char :=
  ((l.dropWhile isPySpace).reverse.dropWhile isPySpace).reverse

/-- Python str.lower over a character list (ASCII model). -/
def lowerChars (l : List Char) : List Char := l.map charLower

/-- Python str.lower over a string. -/
def pyLower (s : String) : String := String.mk (lowerChars s.data)

/-- Python str.strip over a string. -/
def pyStrip (s : String) : String := String.mk (trimChars s.data)

/-- Python str.splitlines: split at line-break characters, treating
a CR LF pair as a single break, with no trailing empty line. -/
def splitLinesCh : List Char → List Char → List (List Char)
  | cur, [] => if cur = [] then [] else [cur.reverse]
  | cur, '\r' :: '\n' :: rest => cur.reverse :: splitLinesCh [] rest
  | cur, c :: rest =>
    if isLineBreak c then cur.reverse :: splitLinesCh [] rest
    else splitLinesCh (c :: cur) rest

/-- Python substring containment (the binary operator in). -/
def containsSub (needle : List Char) : List Char → Bool
  | [] => needle.isPrefixOf []
  | c :: rest => needle.isPrefixOf (c :: rest) || containsSub needle rest

/-- Value of a list of decimal digit characters. -/
def digitsVal (l : List Char) : Nat :=
  l.foldl (fun acc c => 10 * acc + (c.toNat - '0'.toNat)) 0

/-! ## Python float model

Python floats are modelled as exact rationals.  float(s) on the cleaned
numeric strings produced by the extractor (digits, dot, minus) accepts an
optional leading minus followed by digits with at most one dot and at
least one digit. -/

/-- Model of Python float(s) restricted to strings over digits, dot and
minus, as produced by the cleaning step of the extractor. -/
def pyFloat (l : List Char) : Option ℚ :=
  let (neg, body) := match l with
    | '-' :: t => (true, t)
    | _ => (false, l)
  if body.all (fun c => isDig c || c = '.') then
    let intPart := body.takeWhile (fun c => c ≠ '.')
    let rest := body.dropWhile (fun c => c ≠ '.')
    let fracPart := match rest with
      | [] => []
      | _ :: t => t
    if fracPart.all isDig ∧ (intPart ≠ [] ∨ fracPart ≠ []) then
      let mag : ℚ := (digitsVal intPart : ℚ) +
        (digitsVal fracPart : ℚ) / ((10 : ℚ) ^ fracPart.length)
      some (if neg then -mag else mag)
    else none
  else none

/-- Round-half-to-even on rationals (model of Python round on exact
values). -/
def roundHalfEven (q : ℚ) : ℤ :=
  let f : ℤ := ⌊q⌋
  let r : ℚ := q - (f : ℚ)
  if r < 1/2 then f
  else if r > 1/2 then f + 1
  else if f % 2 = 0 then f else f + 1

/-- Python round(x, 2) on the rational model. -/
def round2 (q : ℚ) : ℚ := (roundHalfEven (q * 100) : ℚ) / 100

/-! ## Regular-expression syntax

Each Python pattern in the source is transcribed into this syntax.
Character classes list their atoms; neg marks a complemented class. -/

/-- One atom of a character class. -/
inductive ClsItem where
  | one (c : Char)
  | rng (lo hi : Char)
  | dig
  | spc
  deriving DecidableEq, Repr

/-- Regular expressions: empty string, character class, concatenation,
alternation (left preferred), star (greedy or lazy), numbered capture
group, word boundary, end anchor and start anchor. -/
inductive RE where
  | eps
  | cls (neg : Bool) (items : List ClsItem)
  | concat (a b : RE)
  | alt (a b : RE)
  | star (lazy : Bool) (body : RE)
  | group (g : Nat) (body : RE)
  | wb
  | eol
  | bol
  deriving DecidableEq, Repr

/-- Does a class atom match a character. -/
def itemMatch : ClsItem → Char → Bool
  | ClsItem.one a, c => c = a
  | ClsItem.rng lo hi, c => lo ≤ c ∧ c ≤ hi
  | ClsItem.dig, c => isDig c
  | ClsItem.spc, c => isPySpace c

/-- Does a character class (with IGNORECASE handling and complement)
match a character. -/
def clsMatch (ci : Bool) (neg : Bool) (items : List ClsItem) (c : Char) : Bool :=
  let base := items.any (fun it => itemMatch it c) ||
    (ci && (items.any (fun it => itemMatch it (charLower c)) ||
            items.any (fun it => itemMatch it (charUpper c))))
  if neg then !base else base

/-- Recorded captures: group number paired with the remaining input at
the start and at the end of the group's match. -/
abbrev Caps := List (Nat × List Char × List Char)

/-- One matcher result: position after the match, previously consumed
character (for word boundaries), remaining input, captures. -/
structure MRes where
  pos : Nat
  pv : Option Char
  rest : List Char
  caps : Caps
  deriving Repr

/-- Word-character test on an optional character. -/
def wordOpt : Option Char → Bool
  | none => false
  | some c => isWordChar c

/-- Word-character test on the head of the remaining input. -/
def headWord : List Char → Bool
  | [] => false
  | c :: _ => isWordChar c

/-- The backtracking matcher.  Returns every way the expression can
match a prefix of the remaining input, in Python's preference order:
alternation prefers the left branch, a greedy star prefers more
iterations, a lazy star prefers fewer, and an iteration of a star must
consume input.  Fuel bounds the recursion depth. -/
def mall (ci : Bool) : Nat → RE → Nat → Option Char → List Char → Caps → List MRes
  | 0, _, _, _, _, _ => []
  | _ + 1, RE.eps, pos, pv, r, caps => [⟨pos, pv, r, caps⟩]
  | _ + 1, RE.cls neg items, pos, _, r, caps =>
    match r with
    | [] => []
    | c :: rs => if clsMatch ci neg items c then [⟨pos + 1, some c, rs, caps⟩] else []
  | f + 1, RE.concat a b, pos, pv, r, caps =>
    (mall ci f a pos pv r caps).flatMap (fun m => mall ci f b m.pos m.pv m.rest m.caps)
  | f + 1, RE.alt a b, pos, pv, r, caps =>
    mall ci f a pos pv r caps ++ mall ci f b pos pv r caps
  | f + 1, RE.star lz body, pos, pv, r, caps =>
    let deeper := (mall ci f body pos pv r caps).flatMap
      (fun m => if pos < m.pos then mall ci f (RE.star lz body) m.pos m.pv m.rest m.caps else [])
    if lz then ⟨pos, pv, r, caps⟩ :: deeper else deeper ++ [⟨pos, pv, r, caps⟩]
  | f + 1, RE.group g body, pos, pv, r, caps =>
    (mall ci f body pos pv r caps).map (fun m => ⟨m.pos, m.pv, m.rest, (g, r, m.rest) :: m.caps⟩)
  | _ + 1, RE.wb, pos, pv, r, caps =>
    if wordOpt pv != headWord r then [⟨pos, pv, r, caps⟩] else []
  | _ + 1, RE.eol, pos, pv, r, caps =>
    if r = [] ∨ r = ['\n'] then [⟨pos, pv, r, caps⟩] else []
  | _ + 1, RE.bol, pos, pv, r, caps =>
    if pos = 0 then [⟨pos, pv, r, caps⟩] else []

/-- Structural size of an expression, used to choose sufficient fuel. -/
def REsize : RE → Nat
  | RE.eps => 1
  | RE.cls _ _ => 1
  | RE.concat a b => REsize a + REsize b + 1
  | RE.alt a b => REsize a + REsize b + 1
  | RE.star _ b => REsize b + 1
  | RE.group _ b => REsize b + 1
  | RE.wb => 1
  | RE.eol => 1
  | RE.bol => 1

/-- Fuel sufficient for matching re against input of the given length. -/
def reFuel (re : RE) (len : Nat) : Nat := (REsize re + 2) * (len + 2)

/-- Scan successive start positions (model of re.search): return the
first position whose preferred match succeeds. -/
def searchFrom (ci : Bool) (fuel : Nat) (re : RE) :
    Nat → Nat → Option Char → List Char → Option (Nat × MRes)
  | 0, _, _, _ => none
  | sf + 1, pos, pv, r =>
    match (mall ci fuel re pos pv r []).head? with
    | some m => some (pos, m)
    | none =>
      match r with
      | [] => none
      | c :: rs => searchFrom ci fuel re sf (pos + 1) (some c) rs

/-- Model of re.search: leftmost preferred match over the whole input. -/
def reSearch (ci : Bool) (re : RE) (s : List Char) : Option (Nat × MRes) :=
  searchFrom ci (reFuel re s.length) re (s.length + 1) 0 none s

/-- Model of re.match: preferred match anchored at position zero. -/
def reMatchAt0 (ci : Bool) (re : RE) (s : List Char) : Option MRes :=
  (mall ci (reFuel re s.length) re 0 none s []).head?

/-- Look up the last recorded entry for a group. -/
def capLookup (g : Nat) : Caps → Option (List Char × List Char)
  | [] => none
  | (g1, rs, re1) :: t => if g1 = g then some (rs, re1) else capLookup g t

/-- The characters a group consumed, recovered from the remaining-input
lists recorded at its start and end. -/
def capSlice (rs re1 : List Char) : List Char := rs.take (rs.length - re1.length)

/-- The text captured by a group, if it participated in the match. -/
def groupCap (g : Nat) (caps : Caps) : Option (List Char) :=
  (capLookup g caps).map (fun pr => capSlice pr.1 pr.2)

/-! ## The patterns of the source, transcribed

Combinators that mirror common regex notation: litS for a literal word,
plusG for a greedy plus, optG for a greedy question mark, repN and upToG
for counted repetition. -/

def chrR (c : Char) : RE := RE.cls false [ClsItem.one c]

def litL : List Char → RE
  | [] => RE.eps
  | [c] => chrR c
  | c :: rest => RE.concat (chrR c) (litL rest)

def litS (s : String) : RE := litL s.data

def catR : List RE → RE
  | [] => RE.eps
  | [r] => r
  | r :: rest => RE.concat r (catR rest)

def altsR : List RE → RE
  | [] => RE.eps
  | [r] => r
  | r :: rest => RE.alt r (altsR rest)

def starG (r : RE) : RE := RE.star false r
def starLz (r : RE) : RE := RE.star true r
def plusG (r : RE) : RE := RE.concat r (starG r)
def optG (r : RE) : RE := RE.alt r RE.eps

def repN : Nat → RE → RE
  | 0, _ => RE.eps
  | n + 1, r => RE.concat r (repN n r)

def upToG : Nat → RE → RE
  | 0, _ => RE.eps
  | n + 1, r => RE.alt (RE.concat r (upToG n r)) RE.eps

def dR : RE := RE.cls false [ClsItem.dig]
def sR : RE := RE.cls false [ClsItem.spc]
def anyR : RE := RE.cls true [ClsItem.one '\n']
def digit09 : RE := RE.cls false [ClsItem.rng '0' '9']
def colonSp : RE := RE.cls false [ClsItem.one ':', ClsItem.spc]

/-- From|Vendor|Bill From|Sold By then colon or spaces then rest of line. -/
def vendorRE : RE := catR [
  altsR [litS "From", litS "Vendor",
    catR [litS "Bill", starG sR, litS "From"],
    catR [litS "Sold", starG sR, litS "By"]],
  plusG colonSp,
  RE.group 1 (plusG anyR)]

/-- Line consisting only of digits, whitespace, slash, dash, dot and
currency signs. -/
def vendorSkip1RE : RE := catR [RE.bol,
  plusG (RE.cls false [ClsItem.dig, ClsItem.spc, ClsItem.one '/', ClsItem.one '-',
    ClsItem.one '.', ClsItem.one '$', ClsItem.one '€', ClsItem.one '£']),
  RE.eol]

/-- Line starting with a known field keyword. -/
def vendorSkip2RE : RE := catR [RE.bol,
  RE.group 1 (altsR [litS "Invoice", litS "Date", litS "Total", litS "Subtotal", litS "Tax"])]

def invTokenCls : RE := RE.cls false [ClsItem.rng 'A' 'Z', ClsItem.rng 'a' 'z',
  ClsItem.rng '0' '9', ClsItem.one '-', ClsItem.one '/']

/-- Labelled invoice-number pattern. -/
def invoiceRE1 : RE := catR [
  altsR [
    catR [litS "Invoice", starG sR, optG (chrR '#')],
    catR [litS "Inv", starG sR, litS "No", optG (chrR '.')],
    catR [litS "Invoice", starG sR, litS "Number"],
    catR [litS "Ref", starG sR, optG (chrR '#')],
    catR [litS "ID", starG sR, optG (chrR '#')]],
  starG sR, starG colonSp,
  RE.group 1 (plusG invTokenCls)]

def azCls : RE := RE.cls false [ClsItem.rng 'A' 'Z']

/-- Bare invoice-number pattern: 2 to 5 letters, optional dash or space,
4 or more digits, between word boundaries. -/
def invoiceRE2 : RE := catR [RE.wb,
  RE.group 1 (catR [repN 2 azCls, upToG 3 azCls,
    optG (RE.cls false [ClsItem.one '-', ClsItem.spc]),
    repN 4 dR, starG dR]),
  RE.wb]

def d12 : RE := RE.concat dR (optG dR)
def d24 : RE := catR [dR, dR, upToG 2 dR]
def d4 : RE := repN 4 dR
def sepC : RE := RE.cls false [ClsItem.one '/', ClsItem.one '-']

/-- Labelled numeric date, day or month first. -/
def dateRE1 : RE := catR [
  altsR [litS "Date",
    catR [litS "Invoice", starG sR, litS "Date"],
    catR [litS "Due", starG sR, litS "Date"]],
  starG colonSp,
  RE.group 1 (catR [d12, sepC, d12, sepC, d24])]

/-- Labelled numeric date, year first. -/
def dateRE2 : RE := catR [litS "Date", starG colonSp,
  RE.group 1 (catR [d4, sepC, d12, sepC, d12])]

/-- Bare numeric date between word boundaries. -/
def dateRE3 : RE := catR [RE.wb,
  RE.group 1 (RE.alt (catR [d12, sepC, d12, sepC, d24])
                     (catR [d4, sepC, d12, sepC, d12])),
  RE.wb]

/-- Currency symbol or three-letter code (case sensitive in the source). -/
def currencyRE : RE := RE.group 1 (altsR [chrR '$', chrR '€', chrR '£', chrR '₹',
  litS "INR", litS "USD", litS "EUR", litS "GBP"])

def numCls : RE := RE.cls false [ClsItem.rng '0' '9', ClsItem.one '.', ClsItem.one ',']
def num2Cls : RE := RE.cls false [ClsItem.rng '0' '9', ClsItem.one ',']
def curSym : RE := RE.cls false [ClsItem.one '$', ClsItem.one '€', ClsItem.one '£', ClsItem.one '₹']

def subtotalRE : RE := catR [RE.wb, litS "Subtotal", starG colonSp, RE.group 1 (plusG numCls)]

def taxRE : RE := catR [RE.wb, altsR [litS "Tax", litS "VAT", litS "GST"],
  starG colonSp, RE.group 1 (plusG numCls)]

def totalRE1 : RE := catR [RE.wb, litS "Total", starG sR, optG (litS "Amount"),
  starG colonSp, RE.group 1 (plusG numCls)]

def totalRE2 : RE := catR [RE.wb, optG (catR [litS "Grand", starG sR]), litS "Total",
  starG colonSp, RE.group 1 (plusG numCls)]

def totalRE3 : RE := catR [RE.wb, litS "Amount", starG sR, litS "Due",
  starG colonSp, RE.group 1 (plusG numCls)]

def totalRE4 : RE := catR [RE.wb, litS "Net", starG sR, litS "Amount",
  starG colonSp, RE.group 1 (plusG numCls)]

def totalRE5 : RE := catR [RE.wb, litS "Balance", starG sR, optG (litS "Due"),
  starG colonSp, RE.group 1 (plusG numCls)]

def totalRE6 : RE := catR [altsR [litS "Total", litS "Amount"], starG colonSp,
  starG (RE.cls false [ClsItem.one '$', ClsItem.one '€', ClsItem.one '£',
    ClsItem.one '₹', ClsItem.spc]),
  RE.group 1 (catR [plusG num2Cls, optG (chrR '.'), starG digit09])]

def totalRE7 : RE := catR [curSym, starG sR,
  RE.group 1 (catR [plusG num2Cls, optG (chrR '.'), starG digit09]),
  starG sR, RE.eol]

/-- Per-line item pattern: lazy description, whitespace, amount with
optional currency sign, optional trailing whitespace, end of line. -/
def lineItemRE : RE := catR [
  RE.group 1 (RE.concat anyR (starLz anyR)),
  plusG sR,
  RE.group 2 (catR [optG curSym, starG sR, plusG num2Cls, optG (chrR '.'), upToG 2 digit09]),
  starG sR, RE.eol]

/-! ## Dates: the strptime directives used by the source

CPython's strptime matches a format by a regex built from per-directive
patterns and then validates through the datetime constructor; parsing
fails if any input is left over.  The directives used here are the day,
month, two-digit year and four-digit year. -/

/-- strptime day directive. -/
def spD : RE := altsR [
  catR [chrR '3', RE.cls false [ClsItem.one '0', ClsItem.one '1']],
  catR [RE.cls false [ClsItem.one '1', ClsItem.one '2'], dR],
  catR [chrR '0', RE.cls false [ClsItem.rng '1' '9']],
  RE.cls false [ClsItem.rng '1' '9']]

/-- strptime month directive. -/
def spM : RE := altsR [
  catR [chrR '1', RE.cls false [ClsItem.rng '0' '2']],
  catR [chrR '0', RE.cls false [ClsItem.rng '1' '9']],
  RE.cls false [ClsItem.rng '1' '9']]

/-- strptime two-digit year directive. -/
def spY2 : RE := RE.concat dR dR

/-- strptime four-digit year directive. -/
def spY4 : RE := repN 4 dR

/-- Three directives joined by a literal separator, capturing each. -/
def fmt3 (a b c : RE) (sep : Char) : RE :=
  catR [RE.group 1 a, chrR sep, RE.group 2 b, chrR sep, RE.group 3 c]

/-- Run a three-field strptime format: match at the start, require the
whole input consumed, read the three captures as numbers. -/
def strpRun (re : RE) (s : List Char) : Option (Nat × Nat × Nat) :=
  match reMatchAt0 true re s with
  | none => none
  | some m =>
    if m.rest = [] then
      match groupCap 1 m.caps, groupCap 2 m.caps, groupCap 3 m.caps with
      | some a, some b, some c => some (digitsVal a, digitsVal b, digitsVal c)
      | _, _, _ => none
    else none

/-- A calendar date as kept by datetime.date. -/
structure PyDate where
  y : Nat
  m : Nat
  d : Nat
  deriving DecidableEq, Repr

/-- Strict ordering of dates (datetime.date comparison). -/
def dateLt (a b : PyDate) : Prop :=
  a.y < b.y ∨ (a.y = b.y ∧ (a.m < b.m ∨ (a.m = b.m ∧ a.d < b.d)))

instance (a b : PyDate) : Decidable (dateLt a b) := by
  unfold dateLt; infer_instance

/-- Gregorian leap year. -/
def isLeap (y : Nat) : Bool := y % 4 = 0 ∧ (y % 100 ≠ 0 ∨ y % 400 = 0)

/-- Days in a month. -/
def daysInMonth (y m : Nat) : Nat :=
  if m = 2 then (if isLeap y then 29 else 28)
  else if m ∈ [4, 6, 9, 11] then 30
  else 31

/-- The datetime.date constructor: validates ranges, otherwise fails. -/
def mkValidDate (y m d : Nat) : Option PyDate :=
  if 1 ≤ y ∧ y ≤ 9999 ∧ 1 ≤ m ∧ m ≤ 12 ∧ 1 ≤ d ∧ d ≤ daysInMonth y m then
    some ⟨y, m, d⟩
  else none

/-- Century rule of the two-digit year directive. -/
def mapY2 (n : Nat) : Nat := if n ≤ 68 then 2000 + n else 1900 + n

/-- strptime with format day/month/four-digit-year and given separator. -/
def strpDMY4 (sep : Char) (s : List Char) : Option PyDate :=
  match strpRun (fmt3 spD spM spY4 sep) s with
  | some (d, m, y) => mkValidDate y m d
  | none => none

/-- strptime with format month/day/four-digit-year and given separator. -/
def strpMDY4 (sep : Char) (s : List Char) : Option PyDate :=
  match strpRun (fmt3 spM spD spY4 sep) s with
  | some (m, d, y) => mkValidDate y m d
  | none => none

/-- strptime with format four-digit-year, month, day, dashes. -/
def strpY4MD (s : List Char) : Option PyDate :=
  match strpRun (fmt3 spY4 spM spD '-') s with
  | some (y, m, d) => mkValidDate y m d
  | none => none

/-- strptime with format day/month/two-digit-year. -/
def strpDMY2 (s : List Char) : Option PyDate :=
  match strpRun (fmt3 spD spM spY2 '/') s with
  | some (d, m, y) => mkValidDate (mapY2 y) m d
  | none => none

/-- strptime with format month/day/two-digit-year. -/
def strpMDY2 (s : List Char) : Option PyDate :=
  match strpRun (fmt3 spM spD spY2 '/') s with
  | some (m, d, y) => mkValidDate (mapY2 y) m d
  | none => none

/-- The format cascade of the extractor, in source order. -/
def tryDateFormats (s : List Char) : Option PyDate :=
  match strpDMY4 '/' s with
  | some dt => some dt
  | none => match strpMDY4 '/' s with
    | some dt => some dt
    | none => match strpY4MD s with
      | some dt => some dt
      | none => match strpDMY4 '-' s with
        | some dt => some dt
        | none => match strpMDY4 '-' s with
          | some dt => some dt
          | none => match strpDMY2 s with
            | some dt => some dt
            | none => strpMDY2 s

/-- Decimal digits of a number, zero-padded to the given width
(date.isoformat field). -/
def padNum (width n : Nat) : List Char :=
  let ds := Nat.toDigits 10 n
  List.replicate (width - ds.length) '0' ++ ds

/-- date.isoformat. -/
def isoformat (dt : PyDate) : String :=
  String.mk (padNum 4 dt.y ++ '-' :: padNum 2 dt.m ++ '-' :: padNum 2 dt.d)

/-! ## The field extractor (src/preprocessing/field_extraction.py) -/

/-- One billed line: description and amount. -/
structure LineItem where
  description : String
  amount : ℚ
  deriving DecidableEq, Repr

/-- The structured field set produced by the extractor. -/
structure ExtractedFields where
  vendor : Option String
  invoice_number : Option String
  date : Option String
  currency : Option String
  subtotal : Option ℚ
  tax : Option ℚ
  total : Option ℚ
  line_items : List LineItem
  deriving DecidableEq, Repr

/-- Python x or y on optional strings: the left operand unless it is
missing or empty (falsy). -/
def pyOrStr (a b : Option String) : Option String :=
  match a with
  | some s => if s = "" then b else some s
  | none => b

/-- match.group(1).strip() if match else None. -/
def _extract_first_match (ci : Bool) (re : RE) (text : String) : Option String :=
  match reSearch ci re text.data with
  | some (_, m) => (groupCap 1 m.caps).map (fun g => String.mk (trimChars g))
  | none => none

/-- cleaned = re.sub of everything but digits, dot, comma, minus, then
commas removed, then float(). -/
def _parse_float (v : Option String) : Option ℚ :=
  match v with
  | none => none
  | some s =>
    if s = "" then none
    else pyFloat ((s.data.filter (fun c => isDig c || c = '.' || c = ',' || c = '-')).filter
      (fun c => c ≠ ','))

/-- The non-empty stripped lines backing several extractors. -/
def linesOf (text : String) : List (List Char) :=
  ((splitLinesCh [] text.data).map trimChars).filter (fun l => !l.isEmpty)

/-- The scan over the first five lines inside the vendor extractor. -/
def vendorScanLoop : List (List Char) → Option String
  | [] => none
  | l :: rest =>
    let line := trimChars l
    if line.isEmpty then vendorScanLoop rest
    else if (reMatchAt0 false vendorSkip1RE line).isSome then vendorScanLoop rest
    else if (reMatchAt0 true vendorSkip2RE line).isSome then vendorScanLoop rest
    else if 2 < line.length ∧ line.length < 80 then some (String.mk line)
    else vendorScanLoop rest

/-- Fallback after the scan: the literal first line, or nothing. -/
def vendorFallback (lines : List (List Char)) : Option String :=
  match vendorScanLoop (lines.take 5) with
  | some v => some v
  | none =>
    match lines with
    | [] => none
    | l0 :: _ => some (String.mk l0)

/-- The vendor extractor: labelled pattern with a length guard, then the
line scan, then the first line. -/
def _extract_vendor (text : String) (lines : List (List Char)) : Option String :=
  match reSearch true vendorRE text.data with
  | some (_, m) =>
    match groupCap 1 m.caps with
    | some g =>
      let cand := trimChars g
      if 2 < cand.length ∧ cand.length < 80 then some (String.mk cand)
      else vendorFallback lines
    | none => vendorFallback lines
  | none => vendorFallback lines

/-- The two invoice-number patterns joined by Python or. -/
def rawInvoiceOf (text : String) : Option String :=
  pyOrStr (_extract_first_match true invoiceRE1 text)
          (_extract_first_match true invoiceRE2 text)

/-- Reject a captured label word as the invoice number. -/
def invoiceNumberOf (text : String) : Option String :=
  match rawInvoiceOf text with
  | some s => if s ≠ "" ∧ pyLower s ∈ ["invoice", "number", "no"] then none else some s
  | none => none

/-- The three date patterns in source order; the capture of the first
pattern that matches anywhere. -/
def dateStrOf (text : String) : Option (List Char) :=
  match reSearch true dateRE1 text.data with
  | some (_, m) => groupCap 1 m.caps
  | none =>
    match reSearch true dateRE2 text.data with
    | some (_, m) => groupCap 1 m.caps
    | none =>
      match reSearch true dateRE3 text.data with
      | some (_, m) => groupCap 1 m.caps
      | none => none

/-- First currency symbol or code (case sensitive, no stripping). -/
def currencyOf (text : String) : Option String :=
  match reSearch false currencyRE text.data with
  | some (_, m) => (groupCap 1 m.caps).map String.mk
  | none => none

/-- The seven-pattern total cascade joined by Python or. -/
def rawTotalStrOf (text : String) : Option String :=
  pyOrStr (_extract_first_match true totalRE1 text)
    (pyOrStr (_extract_first_match true totalRE2 text)
      (pyOrStr (_extract_first_match true totalRE3 text)
        (pyOrStr (_extract_first_match true totalRE4 text)
          (pyOrStr (_extract_first_match true totalRE5 text)
            (pyOrStr (_extract_first_match true totalRE6 text)
                     (_extract_first_match true totalRE7 text))))))

/-- Per-line item extraction: description and amount groups, parsed
amount, non-empty stripped description. -/
def lineItemsOf (lines : List (List Char)) : List LineItem :=
  lines.flatMap (fun line =>
    match reSearch false lineItemRE line with
    | some (_, m) =>
      match groupCap 1 m.caps, groupCap 2 m.caps with
      | some desc, some amt =>
        match _parse_float (some (String.mk amt)) with
        | some q =>
          if (trimChars desc).length > 0 then [⟨String.mk (trimChars desc), q⟩] else []
        | none => []
      | _, _ => []
    | none => [])

/-- Sum of the line-item amounts. -/
def sumAmounts (items : List LineItem) : ℚ := (items.map LineItem.amount).sum

/-- extract_fields_from_text: the full ordered heuristic cascade. -/
def extract_fields_from_text (text : String) : ExtractedFields :=
  let lines := linesOf text
  let vendor := _extract_vendor text lines
  let invoice_number := invoiceNumberOf text
  let dateStr := (dateStrOf text).map String.mk
  let parsedDate := ((dateStrOf text).bind tryDateFormats).map isoformat
  let currency := currencyOf text
  let subtotal := _parse_float (_extract_first_match true subtotalRE text)
  let tax := _parse_float (_extract_first_match true taxRE text)
  let total0 := _parse_float (rawTotalStrOf text)
  let items := lineItemsOf lines
  let total := match total0 with
    | some t => some t
    | none => if items.isEmpty then none else some (round2 (sumAmounts items))
  { vendor := vendor
    invoice_number := invoice_number
    date := pyOrStr parsedDate dateStr
    currency := currency
    subtotal := subtotal
    tax := tax
    total := total
    line_items := items }

/-! ## The anomaly rule engine (src/models/anomaly_detection.py)

Anomalies are modelled by their stable code and severity; the
human-readable message (an f-string over the offending values) carries
no information used by any rule or caller and is elided.  The ambient
current date of datetime.now is passed explicitly. -/

/-- A rule finding: machine-readable code and severity. -/
structure Anomaly where
  code : String
  severity : String
  deriving DecidableEq, Repr

/-- A required field value is missing when it is None, the empty string
or numeric zero (the Python membership test value in (None, 0)
together with the empty string). -/
def strFieldMissing (v : Option String) : Bool :=
  v = none || v = some ""

/-- Numeric variant of the missing test. -/
def numFieldMissing (v : Option ℚ) : Bool :=
  v = none || v = some 0

/-- Missing required fields: vendor, invoice number, date, total. -/
def _check_missing_fields (f : ExtractedFields) : List Anomaly :=
  (if strFieldMissing f.vendor then [⟨"missing_vendor", "high"⟩] else []) ++
  (if strFieldMissing f.invoice_number then [⟨"missing_invoice_number", "high"⟩] else []) ++
  (if strFieldMissing f.date then [⟨"missing_date", "high"⟩] else []) ++
  (if numFieldMissing f.total then [⟨"missing_total", "high"⟩] else [])

/-- Total against the sum of line items, with a relative and an absolute
threshold. -/
def _check_total_vs_line_items (f : ExtractedFields) : List Anomaly :=
  match f.total with
  | none => []
  | some t =>
    if f.line_items.isEmpty then []
    else
      let line_sum := sumAmounts f.line_items
      if line_sum = 0 then []
      else
        let diff := |line_sum - t|
        if diff > (1/100) * line_sum ∧ diff > 1 then [⟨"total_mismatch", "high"⟩] else []

/-- Subtotal plus tax against total, or subtotal against total. -/
def _check_subtotal_tax_total (f : ExtractedFields) : List Anomaly :=
  match f.subtotal, f.total with
  | some st, some t =>
    (match f.tax with
     | some tx =>
       let expected := st + tx
       if |expected - t| > (2/100) * t ∧ |expected - t| > 1 then
         [⟨"subtotal_tax_mismatch", "high"⟩]
       else []
     | none =>
       if |st - t| > (2/100) * t ∧ |st - t| > 1 then
         [⟨"subtotal_total_mismatch", "medium"⟩]
       else [])
  | _, _ => []

/-- Future-dated invoice: the first ten characters of the date parsed as
an ISO date, compared with the current date; parse failures and short
strings contribute nothing. -/
def _check_date_future (today : PyDate) (f : ExtractedFields) : List Anomaly :=
  match f.date with
  | none => []
  | some ds =>
    if ds = "" then []
    else if ds.data.length ≥ 10 then
      match strpY4MD (ds.data.take 10) with
      | some dt => if dateLt today dt then [⟨"future_date", "medium"⟩] else []
      | none => []
    else []

/-- Negative total, tax or line-item amounts. -/
def _check_negative_amounts (f : ExtractedFields) : List Anomaly :=
  (match f.total with
   | some t => if t < 0 then [⟨"negative_total", "medium"⟩] else []
   | none => []) ++
  (match f.tax with
   | some tx => if tx < 0 then [⟨"negative_tax", "high"⟩] else []
   | none => []) ++
  f.line_items.flatMap (fun item =>
    if item.amount < 0 then [⟨"negative_line_item", "medium"⟩] else [])

/-- The duplicate key of one line item: stripped lower-cased description
with the amount rounded to two decimals. -/
def lineKey (item : LineItem) : String × ℚ :=
  (pyLower (pyStrip item.description), round2 item.amount)

/-- The loop of the duplicate-line check, carrying the keys seen so far. -/
def dupLineLoop (seen : List (String × ℚ)) : List LineItem → List Anomaly
  | [] => []
  | item :: rest =>
    let k := lineKey item
    (if k ∈ seen then [⟨"duplicate_line_item", "high"⟩] else []) ++
    dupLineLoop (k :: seen) rest

/-- Duplicate line items within one document. -/
def _check_duplicate_line_items (f : ExtractedFields) : List Anomaly :=
  if f.line_items.length < 2 then [] else dupLineLoop [] f.line_items

/-- Non-null non-zero total with no line items at all. -/
def _check_empty_line_items_with_total (f : ExtractedFields) : List Anomaly :=
  match f.total with
  | some t => if t ≠ 0 ∧ f.line_items.isEmpty then [⟨"no_line_items", "medium"⟩] else []
  | none => []

/-- Tax rate outside zero to fifty percent. -/
def _check_tax_rate_sanity (f : ExtractedFields) : List Anomaly :=
  match f.subtotal, f.tax with
  | some st, some tx =>
    if st = 0 then []
    else
      let rate_pct := tx / st * 100
      if rate_pct < 0 ∨ rate_pct > 50 then [⟨"unusual_tax_rate", "low"⟩] else []
  | _, _ => []

/-! ## The duplicate tracker -/

/-- String form of a rational in the fingerprint (stand-in for Python's
float formatting; any injective rendering gives the same membership
semantics). -/
def ratStr (q : ℚ) : String := toString q.num ++ "/" ++ toString q.den

/-- The fingerprint, or nothing when any component is falsy. -/
def _build_key (f : ExtractedFields) : Option String :=
  match f.vendor, f.invoice_number, f.total with
  | some v, some i, some t =>
    if v = "" ∨ i = "" ∨ t = 0 then none
    else some (v ++ "|" ++ i ++ "|" ++ ratStr t)
  | _, _, _ => none

/-- The tracker state: the set of fingerprints seen, as a list. -/
abbrev TrackerState := List String

/-- Membership lookup followed by insertion; an already-present
fingerprint yields the finding and leaves the set unchanged. -/
def DuplicateDetector.check_duplicate (f : ExtractedFields) (seen : TrackerState) :
    Option Anomaly × TrackerState :=
  match _build_key f with
  | none => (none, seen)
  | some key =>
    if key ∈ seen then (some ⟨"possible_duplicate", "high"⟩, seen)
    else (none, key :: seen)

/-- detect_anomalies: the checks in their fixed order, then the optional
tracker-backed duplicate check; returns the findings and the updated
tracker state. -/
def detect_anomalies (today : PyDate) (f : ExtractedFields)
    (tracker : Option TrackerState) : List Anomaly × Option TrackerState :=
  let base :=
    _check_missing_fields f ++
    _check_total_vs_line_items f ++
    _check_subtotal_tax_total f ++
    _check_date_future today f ++
    _check_negative_amounts f ++
    _check_duplicate_line_items f ++
    _check_empty_line_items_with_total f ++
    _check_tax_rate_sanity f
  match tracker with
  | none => (base, none)
  | some seen =>
    match DuplicateDetector.check_duplicate f seen with
    | (some a, seen1) => (base ++ [a], some seen1)
    | (none, seen1) => (base, some seen1)

/-! ## The rule-based document classifier (src/models/doc_classifier.py)

Only the rule-based path is modelled; the trained-model path delegates
to an external learned classifier and is outside the core. -/

/-- Document type labels. -/
inductive DocumentType where
  | invoice
  | expense_receipt
  | other
  deriving DecidableEq, Repr

/-- Classification result: label and confidence. -/
structure DocumentClassificationResult where
  doc_type : DocumentType
  confidence : ℚ
  deriving DecidableEq, Repr

/-- The keyword heuristic used when no model is supplied. -/
def _build_rule_based_fallback (text : String) : DocumentClassificationResult :=
  let lower := lowerChars text.data
  if containsSub "invoice".data lower ∧
     (containsSub "#".data text.data ∨ containsSub "number".data lower ∨
      containsSub "date".data lower) then
    ⟨DocumentType.invoice, 7/10⟩
  else if containsSub "receipt".data lower ∨
          containsSub "thank you for your purchase".data lower then
    ⟨DocumentType.expense_receipt, 7/10⟩
  else
    ⟨DocumentType.other, 5/10⟩

/-- classify_document without a model falls back to the rule-based path. -/
def classify_document (text : String) : DocumentClassificationResult :=
  _build_rule_based_fallback text

/-! ## Shape of each check's findings

Every rule emits findings drawn from a fixed set of code and severity
pairs; these lemmas drive the counting arguments below. -/

theorem mem_missing_shape (f : ExtractedFields) (a : Anomaly)
    (ha : a ∈ _check_missing_fields f) :
    a.severity = "high" ∧ a.code ∈ ["missing_vendor", "missing_invoice_number",
      "missing_date", "missing_total"] := by
  unfold _check_missing_fields at ha
  repeat rw [List.mem_append] at ha
  rcases ha with ((h | h) | h) | h <;> split at h <;> simp_all

theorem mem_total_shape (f : ExtractedFields) (a : Anomaly)
    (ha : a ∈ _check_total_vs_line_items f) : a = ⟨"total_mismatch", "high"⟩ := by
  unfold _check_total_vs_line_items at ha
  repeat split at ha
  all_goals simp_all

theorem mem_subtotal_shape (f : ExtractedFields) (a : Anomaly)
    (ha : a ∈ _check_subtotal_tax_total f) :
    a = ⟨"subtotal_tax_mismatch", "high"⟩ ∨ a = ⟨"subtotal_total_mismatch", "medium"⟩ := by
  unfold _check_subtotal_tax_total at ha
  repeat split at ha
  all_goals simp_all

theorem mem_date_shape (today : PyDate) (f : ExtractedFields) (a : Anomaly)
    (ha : a ∈ _check_date_future today f) : a = ⟨"future_date", "medium"⟩ := by
  unfold _check_date_future at ha
  split at ha
  · simp at ha
  · rename_i ds hds
    by_cases h1 : ds = ""
    · rw [if_pos h1] at ha; simp at ha
    · rw [if_neg h1] at ha
      by_cases h2 : ds.data.length ≥ 10
      · rw [if_pos h2] at ha
        split at ha
        · split at ha
          · simp at ha; simp_all
          · simp at ha
        · simp at ha
      · rw [if_neg h2] at ha; simp at ha

theorem mem_negative_shape (f : ExtractedFields) (a : Anomaly)
    (ha : a ∈ _check_negative_amounts f) :
    a = ⟨"negative_total", "medium"⟩ ∨ a = ⟨"negative_tax", "high"⟩ ∨
    a = ⟨"negative_line_item", "medium"⟩ := by
  unfold _check_negative_amounts at ha
  repeat rw [List.mem_append] at ha
  rcases ha with (h | h) | h
  · split at h <;> [(split at h <;> simp_all); simp_all]
  · split at h <;> [(split at h <;> simp_all); simp_all]
  · rw [List.mem_flatMap] at h
    obtain ⟨item, _, h⟩ := h
    split at h <;> simp_all

theorem mem_dupLineLoop_shape (items : List LineItem) (seen : List (String × ℚ))
    (a : Anomaly) (ha : a ∈ dupLineLoop seen items) :
    a = ⟨"duplicate_line_item", "high"⟩ := by
  induction items generalizing seen with
  | nil => simp [dupLineLoop] at ha
  | cons item rest ih =>
    rw [dupLineLoop, List.mem_append] at ha
    rcases ha with h | h
    · split at h <;> simp_all
    · exact ih _ h

theorem mem_dupline_shape (f : ExtractedFields) (a : Anomaly)
    (ha : a ∈ _check_duplicate_line_items f) : a = ⟨"duplicate_line_item", "high"⟩ := by
  unfold _check_duplicate_line_items at ha
  split at ha
  · simp at ha
  · exact mem_dupLineLoop_shape _ _ _ ha

theorem mem_empty_shape (f : ExtractedFields) (a : Anomaly)
    (ha : a ∈ _check_empty_line_items_with_total f) : a = ⟨"no_line_items", "medium"⟩ := by
  unfold _check_empty_line_items_with_total at ha
  repeat split at ha
  all_goals simp_all

theorem mem_taxrate_shape (f : ExtractedFields) (a : Anomaly)
    (ha : a ∈ _check_tax_rate_sanity f) : a = ⟨"unusual_tax_rate", "low"⟩ := by
  unfold _check_tax_rate_sanity at ha
  repeat split at ha
  all_goals simp_all

theorem tracker_fst_shape (f : ExtractedFields) (s : TrackerState) (a : Anomaly)
    (ha : (DuplicateDetector.check_duplicate f s).1 = some a) :
    a = ⟨"possible_duplicate", "high"⟩ := by
  unfold DuplicateDetector.check_duplicate at ha
  split at ha
  · simp at ha
  · rename_i key hkey
    by_cases hm : key ∈ s
    · rw [if_pos hm] at ha
      simp at ha
      simp_all
    · rw [if_neg hm] at ha
      simp at ha

/-- The findings the optional tracker contributes to a detection pass. -/
def trackerPart (f : ExtractedFields) (tr : Option TrackerState) : List Anomaly :=
  match tr with
  | none => []
  | some s =>
    match (DuplicateDetector.check_duplicate f s).1 with
    | some a => [a]
    | none => []

theorem mem_trackerPart_shape (f : ExtractedFields) (tr : Option TrackerState)
    (a : Anomaly) (ha : a ∈ trackerPart f tr) : a = ⟨"possible_duplicate", "high"⟩ := by
  unfold trackerPart at ha
  split at ha
  · simp at ha
  · split at ha
    · rename_i b hb
      rw [List.mem_singleton] at ha
      subst ha
      exact tracker_fst_shape _ _ _ hb
    · simp at ha

/-- The findings of a detection pass are the eight checks in order
followed by the tracker contribution. -/
theorem detect_fst (today : PyDate) (f : ExtractedFields) (tr : Option TrackerState) :
    (detect_anomalies today f tr).1 =
    _check_missing_fields f ++ _check_total_vs_line_items f ++
    _check_subtotal_tax_total f ++ _check_date_future today f ++
    _check_negative_amounts f ++ _check_duplicate_line_items f ++
    _check_empty_line_items_with_total f ++ _check_tax_rate_sanity f ++
    trackerPart f tr := by
  unfold detect_anomalies trackerPart
  rcases tr with _ | s
  · simp
  · rcases h : DuplicateDetector.check_duplicate f s with ⟨a?, s1⟩
    rcases a? with _ | a <;> simp [h]

/-- A list all of whose members avoid a code contributes no findings
with that code. -/
theorem countP_zero_of_codes (l : List Anomaly) (c : String)
    (h : ∀ a ∈ l, a.code ≠ c) : l.countP (fun a => a.code == c) = 0 := by
  rw [List.countP_eq_zero]
  intro a ha
  simpa using h a ha

/-- Count of one missing-field code inside the missing-fields check. -/
theorem missing_countP (f : ExtractedFields) (c : String)
    (hc : c ∈ ["missing_vendor", "missing_invoice_number", "missing_date", "missing_total"]) :
    (_check_missing_fields f).countP (fun a => a.code == c) =
    (if (c = "missing_vendor" ∧ strFieldMissing f.vendor) ∨
        (c = "missing_invoice_number" ∧ strFieldMissing f.invoice_number) ∨
        (c = "missing_date" ∧ strFieldMissing f.date) ∨
        (c = "missing_total" ∧ numFieldMissing f.total) then 1 else 0) := by
  unfold _check_missing_fields
  repeat rw [List.countP_append]
  by_cases h1 : strFieldMissing f.vendor <;>
    by_cases h2 : strFieldMissing f.invoice_number <;>
    by_cases h3 : strFieldMissing f.date <;>
    by_cases h4 : numFieldMissing f.total <;>
    fin_cases hc <;>
    simp [h1, h2, h3, h4, List.countP_cons, List.countP_nil]

/-- Only the missing-fields check can contribute a missing-field code. -/
theorem detect_countP_missing (today : PyDate) (f : ExtractedFields)
    (tr : Option TrackerState) (c : String)
    (hc : c ∈ ["missing_vendor", "missing_invoice_number", "missing_date", "missing_total"]) :
    (detect_anomalies today f tr).1.countP (fun a => a.code == c) =
    (_check_missing_fields f).countP (fun a => a.code == c) := by
  rw [detect_fst]
  repeat rw [List.countP_append]
  have z2 : (_check_total_vs_line_items f).countP (fun a => a.code == c) = 0 :=
    countP_zero_of_codes _ _ (by
      intro a ha
      have h := mem_total_shape f a ha
      subst h; fin_cases hc <;> simp)
  have z3 : (_check_subtotal_tax_total f).countP (fun a => a.code == c) = 0 :=
    countP_zero_of_codes _ _ (by
      intro a ha
      rcases mem_subtotal_shape f a ha with h | h <;> subst h <;> fin_cases hc <;> simp)
  have z4 : (_check_date_future today f).countP (fun a => a.code == c) = 0 :=
    countP_zero_of_codes _ _ (by
      intro a ha
      have h := mem_date_shape today f a ha
      subst h; fin_cases hc <;> simp)
  have z5 : (_check_negative_amounts f).countP (fun a => a.code == c) = 0 :=
    countP_zero_of_codes _ _ (by
      intro a ha
      rcases mem_negative_shape f a ha with h | h | h <;> subst h <;> fin_cases hc <;> simp)
  have z6 : (_check_duplicate_line_items f).countP (fun a => a.code == c) = 0 :=
    countP_zero_of_codes _ _ (by
      intro a ha
      have h := mem_dupline_shape f a ha
      subst h; fin_cases hc <;> simp)
  have z7 : (_check_empty_line_items_with_total f).countP (fun a => a.code == c) = 0 :=
    countP_zero_of_codes _ _ (by
      intro a ha
      have h := mem_empty_shape f a ha
      subst h; fin_cases hc <;> simp)
  have z8 : (_check_tax_rate_sanity f).countP (fun a => a.code == c) = 0 :=
    countP_zero_of_codes _ _ (by
      intro a ha
      have h := mem_taxrate_shape f a ha
      subst h; fin_cases hc <;> simp)
  have z9 : (trackerPart f tr).countP (fun a => a.code == c) = 0 :=
    countP_zero_of_codes _ _ (by
      intro a ha
      have h := mem_trackerPart_shape f tr a ha
      subst h; fin_cases hc <;> simp)
  rw [z2, z3, z4, z5, z6, z7, z8, z9]
  omega

/-- C4.  For each required field the detection pass emits the
corresponding missing-field code, with severity high, exactly once when
the value is absent, the empty string or numeric zero, and never
otherwise. -/
theorem c4_missing_field_completeness (today : PyDate) (f : ExtractedFields)
    (tr : Option TrackerState) :
    ((detect_anomalies today f tr).1.countP (fun a => a.code == "missing_vendor") =
      if f.vendor = none ∨ f.vendor = some "" then 1 else 0) ∧
    ((detect_anomalies today f tr).1.countP (fun a => a.code == "missing_invoice_number") =
      if f.invoice_number = none ∨ f.invoice_number = some "" then 1 else 0) ∧
    ((detect_anomalies today f tr).1.countP (fun a => a.code == "missing_date") =
      if f.date = none ∨ f.date = some "" then 1 else 0) ∧
    ((detect_anomalies today f tr).1.countP (fun a => a.code == "missing_total") =
      if f.total = none ∨ f.total = some 0 then 1 else 0) ∧
    (∀ a ∈ (detect_anomalies today f tr).1,
      a.code = "missing_vendor" ∨ a.code = "missing_invoice_number" ∨
      a.code = "missing_date" ∨ a.code = "missing_total" → a.severity = "high") := by
  refine ⟨?_, ?_, ?_, ?_, ?_⟩
  · rw [detect_countP_missing today f tr _ (by simp), missing_countP f _ (by simp)]
    simp [strFieldMissing]
  · rw [detect_countP_missing today f tr _ (by simp), missing_countP f _ (by simp)]
    simp [strFieldMissing]
  · rw [detect_countP_missing today f tr _ (by simp), missing_countP f _ (by simp)]
    simp [strFieldMissing]
  · rw [detect_countP_missing today f tr _ (by simp), missing_countP f _ (by simp)]
    simp [numFieldMissing]
  · intro a ha hcode
    rw [detect_fst] at ha
    repeat rw [List.mem_append] at ha
    rcases ha with ((((((((ha | ha) | ha) | ha) | ha) | ha) | ha) | ha) | ha)
    · exact (mem_missing_shape f a ha).1
    · have h := mem_total_shape f a ha; subst h; simp at hcode
    · rcases mem_subtotal_shape f a ha with h | h <;> subst h <;> simp at hcode
    · have h := mem_date_shape today f a ha; subst h; simp at hcode
    · rcases mem_negative_shape f a ha with h | h | h <;> subst h <;> simp at hcode
    · have h := mem_dupline_shape f a ha; subst h; simp at hcode
    · have h := mem_empty_shape f a ha; subst h; simp at hcode
    · have h := mem_taxrate_shape f a ha; subst h; simp at hcode
    · have h := mem_trackerPart_shape f tr a ha; subst h; simp at hcode

/-- A total-mismatch finding in a detection pass can only come from the
total-versus-line-items check. -/
theorem total_mismatch_mem_iff (today : PyDate) (f : ExtractedFields)
    (tr : Option TrackerState) :
    (∃ a ∈ (detect_anomalies today f tr).1, a.code = "total_mismatch") ↔
    (∃ a ∈ _check_total_vs_line_items f, a.code = "total_mismatch") := by
  constructor
  · rintro ⟨a, ha, hcode⟩
    rw [detect_fst] at ha
    repeat rw [List.mem_append] at ha
    rcases ha with ((((((((ha | ha) | ha) | ha) | ha) | ha) | ha) | ha) | ha)
    · have h2 := (mem_missing_shape f a ha).2
      simp at h2
      rcases h2 with h | h | h | h <;> simp [h] at hcode
    · exact ⟨a, ha, hcode⟩
    · rcases mem_subtotal_shape f a ha with h | h <;> subst h <;> simp at hcode
    · have h := mem_date_shape today f a ha; subst h; simp at hcode
    · rcases mem_negative_shape f a ha with h | h | h <;> subst h <;> simp at hcode
    · have h := mem_dupline_shape f a ha; subst h; simp at hcode
    · have h := mem_empty_shape f a ha; subst h; simp at hcode
    · have h := mem_taxrate_shape f a ha; subst h; simp at hcode
    · have h := mem_trackerPart_shape f tr a ha; subst h; simp at hcode
  · rintro ⟨a, ha, hcode⟩
    refine ⟨a, ?_, hcode⟩
    rw [detect_fst]
    repeat rw [List.mem_append]
    tauto

/-- C2, amended.  When a total and at least one line item are present
and the line sum is nonzero, a detection pass emits total_mismatch
exactly when the difference exceeds both one percent of the line sum
and one dollar, that is, exceeds their maximum. -/
theorem c2_total_mismatch_threshold (today : PyDate) (f : ExtractedFields)
    (tr : Option TrackerState) (t : ℚ) (ht : f.total = some t)
    (hne : f.line_items ≠ []) (hsum : sumAmounts f.line_items ≠ 0) :
    (∃ a ∈ (detect_anomalies today f tr).1, a.code = "total_mismatch") ↔
    |sumAmounts f.line_items - t| > max ((1/100) * sumAmounts f.line_items) 1 := by
  rw [total_mismatch_mem_iff]
  obtain ⟨v, inum, dt, cur, st, tx, tot, items⟩ := f
  simp only at ht hne hsum ⊢
  subst ht
  simp only [_check_total_vs_line_items]
  rw [if_neg (by simpa using hne), if_neg hsum]
  constructor
  · rintro ⟨a, ha, hcode⟩
    split at ha
    · rename_i hcond
      exact gt_iff_lt.mpr (max_lt_iff.mpr ⟨hcond.1, hcond.2⟩)
    · simp at ha
  · intro h
    rw [gt_iff_lt, max_lt_iff] at h
    rw [if_pos ⟨h.1, h.2⟩]
    exact ⟨⟨"total_mismatch", "high"⟩, by simp, rfl⟩

/-- Witness fields for the amended threshold theorem: total forty
against a single line item of fifty-five. -/
def c2WitnessFields : ExtractedFields :=
  ⟨some "Tech Vendor", some "TV-1", some "2024-10-04", none, some 50, some 5, some 40,
   [⟨"Subscription", 55⟩]⟩

theorem c2_total_mismatch_threshold_witness :
    ∃ a ∈ (detect_anomalies ⟨2026, 1, 1⟩ c2WitnessFields none).1,
      a.code = "total_mismatch" :=
  (c2_total_mismatch_threshold ⟨2026, 1, 1⟩ c2WitnessFields none 40
    (of_decide_eq_true rfl) (of_decide_eq_true rfl) (of_decide_eq_true rfl)).mpr
    (of_decide_eq_true rfl)

/-- Counterexample fields for the unconditional threshold claim: line
items cancel to a zero sum while the total is ten. -/
def c2CounterFields : ExtractedFields :=
  ⟨some "V", some "I-9", some "2024-01-01", none, none, none, some 10,
   [⟨"a", 5⟩, ⟨"b", -5⟩]⟩

/-- C2 as stated is false on the code: here the difference exceeds the
threshold, yet the zero line sum makes the check skip, so no
total_mismatch is emitted. -/
theorem c2_threshold_counterexample :
    |sumAmounts c2CounterFields.line_items - 10| >
      max ((1/100) * sumAmounts c2CounterFields.line_items) 1 ∧
    ∀ a ∈ (detect_anomalies ⟨2026, 1, 1⟩ c2CounterFields none).1,
      a.code ≠ "total_mismatch" :=
  of_decide_eq_true rfl

/-- C3.  With vendor, invoice number and total all present, non-empty
and nonzero, a fingerprint is built; a call on a tracker that has not
seen it returns no finding and inserts it, any call on a tracker that
has seen it returns a possible_duplicate of severity high and keeps the
set unchanged, after any call the fingerprint is in the set, and the
set of any call only ever grows. -/
theorem c3_duplicate_monotonicity (f : ExtractedFields) (v i : String) (t : ℚ)
    (hv : f.vendor = some v) (hvne : v ≠ "") (hi : f.invoice_number = some i)
    (hine : i ≠ "") (ht : f.total = some t) (htne : t ≠ 0) :
    ∃ k, _build_key f = some k ∧
      (∀ s : TrackerState, k ∉ s →
        DuplicateDetector.check_duplicate f s = (none, k :: s)) ∧
      (∀ s : TrackerState, k ∈ s →
        DuplicateDetector.check_duplicate f s = (some ⟨"possible_duplicate", "high"⟩, s)) ∧
      (∀ s : TrackerState, k ∈ (DuplicateDetector.check_duplicate f s).2) ∧
      (∀ (g : ExtractedFields) (s : TrackerState),
        s ⊆ (DuplicateDetector.check_duplicate g s).2) := by
  obtain ⟨fv, fi, fd, fc, fst, ftx, ftot, fits⟩ := f
  simp only at hv hi ht
  subst hv; subst hi; subst ht
  have hkey : _build_key ⟨some v, some i, fd, fc, fst, ftx, some t, fits⟩ =
      some (v ++ "|" ++ i ++ "|" ++ ratStr t) := by
    simp only [_build_key]
    rw [if_neg (by simp [hvne, hine, htne])]
  refine ⟨v ++ "|" ++ i ++ "|" ++ ratStr t, hkey, ?_, ?_, ?_, ?_⟩
  · intro s hks
    simp only [DuplicateDetector.check_duplicate, hkey]
    rw [if_neg hks]
  · intro s hks
    simp only [DuplicateDetector.check_duplicate, hkey]
    rw [if_pos hks]
  · intro s
    simp only [DuplicateDetector.check_duplicate, hkey]
    by_cases hks : (v ++ "|" ++ i ++ "|" ++ ratStr t) ∈ s
    · rw [if_pos hks]; exact hks
    · rw [if_neg hks]; exact List.mem_cons_self _ _
  · intro g s
    simp only [DuplicateDetector.check_duplicate]
    rcases h : _build_key g with _ | key
    · simp [h]
    · simp only [h]
      by_cases hks : key ∈ s
      · simp [hks]
      · simp only [if_neg hks]
        exact fun x hx => List.mem_cons_of_mem _ hx

/-- Witness fields for the tracker theorem. -/
def c3WitnessFields : ExtractedFields :=
  ⟨some "Vendor X", some "DX-9", some "2024-10-05", none, none, none, some 80, []⟩

theorem c3_duplicate_monotonicity_witness :
    DuplicateDetector.check_duplicate c3WitnessFields [] =
      (none, ["Vendor X|DX-9|80/1"]) ∧
    DuplicateDetector.check_duplicate c3WitnessFields ["Vendor X|DX-9|80/1"] =
      (some ⟨"possible_duplicate", "high"⟩, ["Vendor X|DX-9|80/1"]) := by
  obtain ⟨k, hk, h1, h2, h3, h4⟩ :=
    c3_duplicate_monotonicity c3WitnessFields "Vendor X" "DX-9" 80 rfl
      (of_decide_eq_true rfl) rfl (of_decide_eq_true rfl) rfl (of_decide_eq_true rfl)
  have h5 : _build_key c3WitnessFields = some "Vendor X|DX-9|80/1" :=
    of_decide_eq_true rfl
  rw [h5] at hk
  have hkeq : k = "Vendor X|DX-9|80/1" := (Option.some.inj hk).symm
  subst hkeq
  exact ⟨h1 [] (by simp), h2 ["Vendor X|DX-9|80/1"] (by simp)⟩

/-- A future-date finding in a detection pass can only come from the
future-date check, and always carries severity medium. -/
theorem future_date_mem_iff (today : PyDate) (f : ExtractedFields)
    (tr : Option TrackerState) :
    (∃ a ∈ (detect_anomalies today f tr).1, a.code = "future_date" ∧ a.severity = "medium") ↔
    (⟨"future_date", "medium"⟩ : Anomaly) ∈ _check_date_future today f := by
  constructor
  · rintro ⟨a, ha, hcode, hsev⟩
    rw [detect_fst] at ha
    repeat rw [List.mem_append] at ha
    rcases ha with ((((((((ha | ha) | ha) | ha) | ha) | ha) | ha) | ha) | ha)
    · have h2 := (mem_missing_shape f a ha).2
      simp at h2
      rcases h2 with h | h | h | h <;> simp [h] at hcode
    · have h := mem_total_shape f a ha; subst h; simp at hcode
    · rcases mem_subtotal_shape f a ha with h | h <;> subst h <;> simp at hcode
    · have h := mem_date_shape today f a ha; subst h; exact ha
    · rcases mem_negative_shape f a ha with h | h | h <;> subst h <;> simp at hcode
    · have h := mem_dupline_shape f a ha; subst h; simp at hcode
    · have h := mem_empty_shape f a ha; subst h; simp at hcode
    · have h := mem_taxrate_shape f a ha; subst h; simp at hcode
    · have h := mem_trackerPart_shape f tr a ha; subst h; simp at hcode
  · intro h
    refine ⟨⟨"future_date", "medium"⟩, ?_, rfl, rfl⟩
    rw [detect_fst]
    repeat rw [List.mem_append]
    tauto

/-- Closed form of the future-date check on a present, non-empty date. -/
theorem check_date_eq (today : PyDate) (f : ExtractedFields) (ds : String)
    (hd : f.date = some ds) (hne : ds ≠ "") :
    _check_date_future today f =
    (if ds.data.length ≥ 10 then
      match strpY4MD (ds.data.take 10) with
      | some dt => if dateLt today dt then [⟨"future_date", "medium"⟩] else []
      | none => []
    else []) := by
  obtain ⟨fv, fi, fd, fc, fst, ftx, ftot, fits⟩ := f
  simp only at hd
  subst hd
  simp only [_check_date_future]
  rw [if_neg hne]

/-- C7, amended.  On a present non-empty date, a detection pass emits
future_date (severity medium) exactly when the date has at least ten
characters and its first ten characters parse as a valid calendar date
strictly after the current date; parse failures contribute nothing. -/
theorem c7_future_date (today : PyDate) (f : ExtractedFields) (tr : Option TrackerState)
    (ds : String) (hd : f.date = some ds) (hne : ds ≠ "") :
    (∃ a ∈ (detect_anomalies today f tr).1, a.code = "future_date" ∧ a.severity = "medium") ↔
    (ds.data.length ≥ 10 ∧
      ∃ dt, strpY4MD (ds.data.take 10) = some dt ∧ dateLt today dt) := by
  rw [future_date_mem_iff, check_date_eq today f ds hd hne]
  by_cases h2 : ds.data.length ≥ 10
  · rw [if_pos h2]
    rcases hp : strpY4MD (ds.data.take 10) with _ | dt
    · simp only [hp]
      constructor
      · intro h; simp at h
      · rintro ⟨-, dt, hdt, -⟩; simp at hdt
    · simp only [hp]
      by_cases hlt : dateLt today dt
      · rw [if_pos hlt]
        constructor
        · intro _; exact ⟨h2, dt, rfl, hlt⟩
        · intro _; exact List.mem_singleton_self _
      · rw [if_neg hlt]
        constructor
        · intro h; simp at h
        · rintro ⟨-, dt2, hdt2, hlt2⟩
          obtain rfl : dt = dt2 := Option.some.inj hdt2
          exact absurd hlt2 hlt
  · rw [if_neg h2]
    constructor
    · intro h; simp at h
    · rintro ⟨hl, -⟩; exact absurd hl h2

/-- Witness fields with a ten-character future date. -/
def c7WitnessFields : ExtractedFields :=
  ⟨some "V", some "I-1", some "2999-01-05", none, none, none, some 5, []⟩

theorem c7_future_date_witness :
    ∃ a ∈ (detect_anomalies ⟨2024, 1, 1⟩ c7WitnessFields none).1,
      a.code = "future_date" ∧ a.severity = "medium" :=
  (c7_future_date ⟨2024, 1, 1⟩ c7WitnessFields none "2999-01-05" rfl
    (of_decide_eq_true rfl)).mpr
    ⟨of_decide_eq_true rfl, ⟨2999, 1, 5⟩, of_decide_eq_true rfl, of_decide_eq_true rfl⟩

/-- Counterexample fields: a nine-character date that does parse as a
future ISO date. -/
def c7CounterFields : ExtractedFields :=
  ⟨some "V", some "I-1", some "2999-1-05", none, none, none, some 5, []⟩

/-- C7 as stated is false on the code: the first ten characters of
"2999-1-05" parse to the year 2999, a future date, yet the length guard
makes the check emit nothing. -/
theorem c7_future_date_counterexample :
    (∀ a ∈ (detect_anomalies ⟨2024, 1, 1⟩ c7CounterFields none).1,
      a.code ≠ "future_date") ∧
    strpY4MD ("2999-1-05".data.take 10) = some ⟨2999, 1, 5⟩ ∧
    dateLt ⟨2024, 1, 1⟩ ⟨2999, 1, 5⟩ :=
  of_decide_eq_true rfl

/-- The duplicate-line loop flags one finding per item whose key lies in
the seen set or among the keys of the items before it. -/
theorem dupLineLoop_length (items : List LineItem) (seen : List (String × ℚ)) :
    (dupLineLoop seen items).length =
    (List.range items.length).countP
      (fun i => decide ((items.map lineKey).getD i ("", 0) ∈
        seen ++ (items.map lineKey).take i)) := by
  induction items generalizing seen with
  | nil => simp [dupLineLoop]
  | cons item rest ih =>
    rw [dupLineLoop, List.length_append, ih (lineKey item :: seen)]
    rw [List.length_cons, List.range_succ_eq_map, List.countP_cons, List.countP_map]
    have h0 : (if lineKey item ∈ seen then [(⟨"duplicate_line_item", "high"⟩ : Anomaly)]
        else []).length = if decide (((item :: rest).map lineKey).getD 0 ("", 0) ∈
        seen ++ ((item :: rest).map lineKey).take 0) = true then 1 else 0 := by
      by_cases h : lineKey item ∈ seen <;> simp [h]
    rw [h0]
    have hcongr : ∀ i ∈ List.range rest.length,
        (decide ((rest.map lineKey).getD i ("", 0) ∈
          (lineKey item :: seen) ++ (rest.map lineKey).take i) = true) ↔
        (((fun i => decide (((item :: rest).map lineKey).getD i ("", 0) ∈
          seen ++ ((item :: rest).map lineKey).take i)) ∘ Nat.succ) i = true) := by
      intro i _
      simp only [Function.comp_apply, List.map_cons, List.getD_cons_succ, List.take_succ_cons,
        decide_eq_true_eq]
      constructor
      · intro h
        rcases List.mem_append.mp h with h1 | h1
        · rcases List.mem_cons.mp h1 with h2 | h2
          · exact List.mem_append.mpr (Or.inr (List.mem_cons.mpr (Or.inl h2)))
          · exact List.mem_append.mpr (Or.inl h2)
        · exact List.mem_append.mpr (Or.inr (List.mem_cons.mpr (Or.inr h1)))
      · intro h
        rcases List.mem_append.mp h with h1 | h1
        · exact List.mem_append.mpr (Or.inl (List.mem_cons.mpr (Or.inr h1)))
        · rcases List.mem_cons.mp h1 with h2 | h2
          · exact List.mem_append.mpr (Or.inl (List.mem_cons.mpr (Or.inl h2)))
          · exact List.mem_append.mpr (Or.inr h2)
    rw [List.countP_congr hcongr]
    omega

/-- C8.  A detection pass emits duplicate_line_item, always with
severity high, exactly once for every line item whose key, the stripped
lower-cased description with the amount rounded to two decimals, has
already appeared earlier in the line-item sequence. -/
theorem c8_duplicate_line_items (today : PyDate) (f : ExtractedFields)
    (tr : Option TrackerState) :
    ((detect_anomalies today f tr).1.countP (fun a => a.code == "duplicate_line_item") =
      (List.range f.line_items.length).countP
        (fun i => decide ((f.line_items.map lineKey).getD i ("", 0) ∈
          (f.line_items.map lineKey).take i))) ∧
    (∀ a ∈ (detect_anomalies today f tr).1,
      a.code = "duplicate_line_item" → a.severity = "high") := by
  constructor
  · rw [detect_fst]
    repeat rw [List.countP_append]
    have z1 : (_check_missing_fields f).countP (fun a => a.code == "duplicate_line_item") = 0 :=
      countP_zero_of_codes _ _ (by
        intro a ha
        have h2 := (mem_missing_shape f a ha).2
        simp at h2
        rcases h2 with h | h | h | h <;> simp [h])
    have z2 : (_check_total_vs_line_items f).countP
        (fun a => a.code == "duplicate_line_item") = 0 :=
      countP_zero_of_codes _ _ (by
        intro a ha; have h := mem_total_shape f a ha; subst h; simp)
    have z3 : (_check_subtotal_tax_total f).countP
        (fun a => a.code == "duplicate_line_item") = 0 :=
      countP_zero_of_codes _ _ (by
        intro a ha
        rcases mem_subtotal_shape f a ha with h | h <;> subst h <;> simp)
    have z4 : (_check_date_future today f).countP
        (fun a => a.code == "duplicate_line_item") = 0 :=
      countP_zero_of_codes _ _ (by
        intro a ha; have h := mem_date_shape today f a ha; subst h; simp)
    have z5 : (_check_negative_amounts f).countP
        (fun a => a.code == "duplicate_line_item") = 0 :=
      countP_zero_of_codes _ _ (by
        intro a ha
        rcases mem_negative_shape f a ha with h | h | h <;> subst h <;> simp)
    have z7 : (_check_empty_line_items_with_total f).countP
        (fun a => a.code == "duplicate_line_item") = 0 :=
      countP_zero_of_codes _ _ (by
        intro a ha; have h := mem_empty_shape f a ha; subst h; simp)
    have z8 : (_check_tax_rate_sanity f).countP
        (fun a => a.code == "duplicate_line_item") = 0 :=
      countP_zero_of_codes _ _ (by
        intro a ha; have h := mem_taxrate_shape f a ha; subst h; simp)
    have z9 : (trackerPart f tr).countP (fun a => a.code == "duplicate_line_item") = 0 :=
      countP_zero_of_codes _ _ (by
        intro a ha; have h := mem_trackerPart_shape f tr a ha; subst h; simp)
    rw [z1, z2, z3, z4, z5, z7, z8, z9]
    have hall : (_check_duplicate_line_items f).countP
        (fun a => a.code == "duplicate_line_item") =
        (_check_duplicate_line_items f).length := by
      rw [List.countP_eq_length]
      intro a ha
      have h := mem_dupline_shape f a ha
      subst h; simp
    rw [hall]
    unfold _check_duplicate_line_items
    by_cases hlen : f.line_items.length < 2
    · rw [if_pos hlen]
      rcases hitems : f.line_items with _ | ⟨x, _ | ⟨y, rest⟩⟩
      · simp
      · simp [List.range_succ]
      · rw [hitems, List.length_cons, List.length_cons] at hlen; omega
    · rw [if_neg hlen, dupLineLoop_length]
      simp
  · intro a ha hcode
    rw [detect_fst] at ha
    repeat rw [List.mem_append] at ha
    rcases ha with ((((((((ha | ha) | ha) | ha) | ha) | ha) | ha) | ha) | ha)
    · have h2 := (mem_missing_shape f a ha).2
      simp at h2
      rcases h2 with h | h | h | h <;> simp [h] at hcode
    · have h := mem_total_shape f a ha; subst h; simp at hcode
    · rcases mem_subtotal_shape f a ha with h | h <;> subst h <;> simp at hcode
    · have h := mem_date_shape today f a ha; subst h; simp at hcode
    · rcases mem_negative_shape f a ha with h | h | h <;> subst h <;> simp at hcode
    · have h := mem_dupline_shape f a ha; subst h; rfl
    · have h := mem_empty_shape f a ha; subst h; simp at hcode
    · have h := mem_taxrate_shape f a ha; subst h; simp at hcode
    · have h := mem_trackerPart_shape f tr a ha; subst h; simp at hcode

/-- Witness fields with one repeated line item. -/
def c8WitnessFields : ExtractedFields :=
  ⟨some "V", some "I-1", some "2024-01-01", none, none, none, some 10,
   [⟨"Latte", 5⟩, ⟨"Latte", 5⟩]⟩

theorem c8_duplicate_line_items_witness :
    (detect_anomalies ⟨2026, 1, 1⟩ c8WitnessFields none).1.countP
      (fun a => a.code == "duplicate_line_item") = 1 := by
  rw [(c8_duplicate_line_items ⟨2026, 1, 1⟩ c8WitnessFields none).1]
  exact of_decide_eq_true rfl

/-- C9.  Without a model, classification follows the keyword rules:
invoice keywords give the invoice label at confidence 0.7, else receipt
keywords give the receipt label at 0.7, else the other label at 0.5;
in every case the confidence lies in the unit interval. -/
theorem c9_classifier_rules (text : String) :
    (0 ≤ (classify_document text).confidence ∧ (classify_document text).confidence ≤ 1) ∧
    ((containsSub "invoice".data (lowerChars text.data) ∧
      (containsSub "#".data text.data ∨ containsSub "number".data (lowerChars text.data) ∨
       containsSub "date".data (lowerChars text.data))) →
      classify_document text = ⟨DocumentType.invoice, 7/10⟩) ∧
    (¬(containsSub "invoice".data (lowerChars text.data) ∧
      (containsSub "#".data text.data ∨ containsSub "number".data (lowerChars text.data) ∨
       containsSub "date".data (lowerChars text.data))) →
     (containsSub "receipt".data (lowerChars text.data) ∨
      containsSub "thank you for your purchase".data (lowerChars text.data)) →
      classify_document text = ⟨DocumentType.expense_receipt, 7/10⟩) ∧
    (¬(containsSub "invoice".data (lowerChars text.data) ∧
      (containsSub "#".data text.data ∨ containsSub "number".data (lowerChars text.data) ∨
       containsSub "date".data (lowerChars text.data))) →
     ¬(containsSub "receipt".data (lowerChars text.data) ∨
       containsSub "thank you for your purchase".data (lowerChars text.data)) →
      classify_document text = ⟨DocumentType.other, 5/10⟩) := by
  simp only [classify_document, _build_rule_based_fallback]
  by_cases h1 : (containsSub "invoice".data (lowerChars text.data) ∧
      (containsSub "#".data text.data ∨ containsSub "number".data (lowerChars text.data) ∨
       containsSub "date".data (lowerChars text.data)))
  · rw [if_pos h1]
    refine ⟨⟨by norm_num, by norm_num⟩, fun _ => rfl, fun hn _ => absurd h1 hn,
      fun hn _ => absurd h1 hn⟩
  · rw [if_neg h1]
    by_cases h2 : (containsSub "receipt".data (lowerChars text.data) ∨
      containsSub "thank you for your purchase".data (lowerChars text.data))
    · rw [if_pos h2]
      exact ⟨⟨by norm_num, by norm_num⟩, fun h => absurd h h1, fun _ _ => rfl,
        fun _ hn => absurd h2 hn⟩
    · rw [if_neg h2]
      exact ⟨⟨by norm_num, by norm_num⟩, fun h => absurd h h1, fun _ h => absurd h h2,
        fun _ _ => rfl⟩

theorem c9_classifier_rules_witness :
    classify_document "Invoice #1" = ⟨DocumentType.invoice, 7/10⟩ :=
  (c9_classifier_rules "Invoice #1").2.1 (of_decide_eq_true rfl)

/-- C5.  The extractor is a total function: every input yields a field
set, and on the empty string every scalar field is absent and the
line-item list is empty. -/
theorem c5_extractor_total :
    (∀ text : String, ∃ r : ExtractedFields, extract_fields_from_text text = r) ∧
    extract_fields_from_text "" = ⟨none, none, none, none, none, none, none, []⟩ :=
  ⟨fun _ => ⟨_, rfl⟩, of_decide_eq_true rfl⟩

/-- C6.  When the label-pattern cascade yields no total but line items
exist, the total is backfilled with their sum rounded to two decimals. -/
theorem c6_total_backfill (text : String)
    (h0 : _parse_float (rawTotalStrOf text) = none)
    (hne : lineItemsOf (linesOf text) ≠ []) :
    (extract_fields_from_text text).total =
      some (round2 (sumAmounts (lineItemsOf (linesOf text)))) := by
  simp only [extract_fields_from_text, h0]
  simp [hne]

/-- Witness text: two line items summing to one hundred, no total label. -/
def c6WitnessText : String := "Widget A 60.00\nWidget B 40.00"

theorem c6_total_backfill_witness :
    _parse_float (rawTotalStrOf c6WitnessText) = none ∧
    (extract_fields_from_text c6WitnessText).total = some 100 := by
  have h0 : _parse_float (rawTotalStrOf c6WitnessText) = none := of_decide_eq_true rfl
  have hne : lineItemsOf (linesOf c6WitnessText) ≠ [] := of_decide_eq_true rfl
  refine ⟨h0, ?_⟩
  rw [c6_total_backfill c6WitnessText h0 hne]
  exact of_decide_eq_true rfl

/-- The text of scenario one. -/
def c1Text : String :=
  "ACME Corp\nInvoice #INV-1001\nDate: 01/10/2024\nSubtotal: 90.00\nTax: 10.00\nTotal: 100.00\n\nConsulting services 100.00"

/-- C1 as stated is false on the code: vendor and total are extracted
as claimed, but the line-item heuristic also captures the Subtotal, Tax
and Total label lines, so the line sum is three hundred and a
total_mismatch finding is emitted. -/
theorem c1_scenario_counterexample :
    ¬ ((extract_fields_from_text c1Text).vendor = some "ACME Corp" ∧
       (extract_fields_from_text c1Text).total = some 100 ∧
       ∀ a ∈ (detect_anomalies ⟨2026, 1, 1⟩ (extract_fields_from_text c1Text) none).1,
         a.code ≠ "total_mismatch") :=
  of_decide_eq_true rfl

/-- C1, amended.  The scenario extracts vendor ACME Corp and total one
hundred, and a detection pass over the extracted fields emits a
total_mismatch finding, whatever the current date. -/
theorem c1_scenario_amended (today : PyDate) :
    (extract_fields_from_text c1Text).vendor = some "ACME Corp" ∧
    (extract_fields_from_text c1Text).total = some 100 ∧
    ∃ a ∈ (detect_anomalies today (extract_fields_from_text c1Text) none).1,
      a.code = "total_mismatch" := by
  refine ⟨of_decide_eq_true rfl, of_decide_eq_true rfl, ?_⟩
  rw [detect_fst]
  refine ⟨⟨"total_mismatch", "high"⟩, ?_, rfl⟩
  repeat rw [List.mem_append]
  have hm : (⟨"total_mismatch", "high"⟩ : Anomaly) ∈
      _check_total_vs_line_items (extract_fields_from_text c1Text) :=
    of_decide_eq_true rfl
  tauto

/-! ## Properties of the matcher

These lemmas track how a match consumes input and what it records in
the capture list; they back the non-emptiness invariant of the
extracted string fields. -/

/-- Any result of the matcher sits a computed number of characters into
the remaining input. -/
theorem mall_suffix (ci : Bool) : ∀ (fuel : Nat) (re : RE) (pos : Nat) (pv : Option Char)
    (r : List Char) (caps : Caps) (m : MRes), m ∈ mall ci fuel re pos pv r caps →
    ∃ k, k ≤ r.length ∧ m.pos = pos + k ∧ m.rest = r.drop k := by
  intro fuel
  induction fuel with
  | zero =>
    intro re pos pv r caps m hm
    simp [mall] at hm
  | succ f ih =>
    intro re pos pv r caps m hm
    cases re with
    | eps =>
      simp [mall] at hm
      subst hm
      exact ⟨0, by simp⟩
    | cls neg items =>
      rcases r with _ | ⟨c, rs⟩
      · simp [mall] at hm
      · simp only [mall] at hm
        split at hm
        · simp at hm
          subst hm
          exact ⟨1, by simp⟩
        · simp at hm
    | concat a b =>
      simp only [mall, List.mem_flatMap] at hm
      obtain ⟨m1, hm1, hm2⟩ := hm
      obtain ⟨k1, hk1, hp1, hr1⟩ := ih a pos pv r caps m1 hm1
      obtain ⟨k2, hk2, hp2, hr2⟩ := ih b m1.pos m1.pv m1.rest m1.caps m hm2
      refine ⟨k1 + k2, ?_, ?_, ?_⟩
      · rw [hr1, List.length_drop] at hk2
        omega
      · omega
      · rw [hr2, hr1, List.drop_drop]
    | alt a b =>
      simp only [mall, List.mem_append] at hm
      rcases hm with hm | hm
      · exact ih a pos pv r caps m hm
      · exact ih b pos pv r caps m hm
    | star lz body =>
      have hbase : m = (⟨pos, pv, r, caps⟩ : MRes) →
          ∃ k, k ≤ r.length ∧ m.pos = pos + k ∧ m.rest = r.drop k := by
        intro h
        subst h
        exact ⟨0, by simp⟩
      have hdeep : m ∈ (mall ci f body pos pv r caps).flatMap
          (fun m1 => if pos < m1.pos then
            mall ci f (RE.star lz body) m1.pos m1.pv m1.rest m1.caps else []) →
          ∃ k, k ≤ r.length ∧ m.pos = pos + k ∧ m.rest = r.drop k := by
        intro h
        rw [List.mem_flatMap] at h
        obtain ⟨m1, hm1, hm2⟩ := h
        split at hm2
        · obtain ⟨k1, hk1, hp1, hr1⟩ := ih body pos pv r caps m1 hm1
          obtain ⟨k2, hk2, hp2, hr2⟩ :=
            ih (RE.star lz body) m1.pos m1.pv m1.rest m1.caps m hm2
          refine ⟨k1 + k2, ?_, ?_, ?_⟩
          · rw [hr1, List.length_drop] at hk2
            omega
          · omega
          · rw [hr2, hr1, List.drop_drop]
        · simp at hm2
      simp only [mall] at hm
      split at hm
      · rcases List.mem_cons.mp hm with h | h
        · exact hbase h
        · exact hdeep h
      · rcases List.mem_append.mp hm with h | h
        · exact hdeep h
        · exact hbase (List.mem_singleton.mp h)
    | group g body =>
      simp only [mall, List.mem_map] at hm
      obtain ⟨m1, hm1, hm2⟩ := hm
      obtain ⟨k1, hk1, hp1, hr1⟩ := ih body pos pv r caps m1 hm1
      subst hm2
      exact ⟨k1, hk1, hp1, hr1⟩
    | wb =>
      simp only [mall] at hm
      split at hm
      · simp at hm
        subst hm
        exact ⟨0, by simp⟩
      · simp at hm
    | eol =>
      simp only [mall] at hm
      split at hm
      · simp at hm
        subst hm
        exact ⟨0, by simp⟩
      · simp at hm
    | bol =>
      simp only [mall] at hm
      split at hm
      · simp at hm
        subst hm
        exact ⟨0, by simp⟩
      · simp at hm

/-- Syntactically non-nullable expressions: every match consumes input. -/
def NonNull : RE → Bool
  | RE.eps => false
  | RE.cls _ _ => true
  | RE.concat a b => NonNull a || NonNull b
  | RE.alt a b => NonNull a && NonNull b
  | RE.star _ _ => false
  | RE.group _ b => NonNull b
  | RE.wb => false
  | RE.eol => false
  | RE.bol => false

/-- A non-nullable expression strictly advances the position. -/
theorem mall_progress (ci : Bool) : ∀ (fuel : Nat) (re : RE) (pos : Nat) (pv : Option Char)
    (r : List Char) (caps : Caps) (m : MRes), NonNull re = true →
    m ∈ mall ci fuel re pos pv r caps → pos < m.pos := by
  intro fuel
  induction fuel with
  | zero =>
    intro re pos pv r caps m _ hm
    simp [mall] at hm
  | succ f ih =>
    intro re pos pv r caps m hnn hm
    cases re with
    | eps => simp [NonNull] at hnn
    | cls neg items =>
      rcases r with _ | ⟨c, rs⟩
      · simp [mall] at hm
      · simp only [mall] at hm
        split at hm
        · simp at hm
          subst hm
          simp
        · simp at hm
    | concat a b =>
      simp only [mall, List.mem_flatMap] at hm
      obtain ⟨m1, hm1, hm2⟩ := hm
      rw [NonNull, Bool.or_eq_true] at hnn
      rcases hnn with hna | hnb
      · have h1 := ih a pos pv r caps m1 hna hm1
        obtain ⟨k2, -, hp2, -⟩ := mall_suffix ci f b m1.pos m1.pv m1.rest m1.caps m hm2
        omega
      · obtain ⟨k1, -, hp1, -⟩ := mall_suffix ci f a pos pv r caps m1 hm1
        have h2 := ih b m1.pos m1.pv m1.rest m1.caps m hnb hm2
        omega
    | alt a b =>
      rw [NonNull, Bool.and_eq_true] at hnn
      simp only [mall, List.mem_append] at hm
      rcases hm with hm | hm
      · exact ih a pos pv r caps m hnn.1 hm
      · exact ih b pos pv r caps m hnn.2 hm
    | star lz body => simp [NonNull] at hnn
    | group g body =>
      simp only [mall, List.mem_map] at hm
      obtain ⟨m1, hm1, hm2⟩ := hm
      rw [NonNull] at hnn
      have h1 := ih body pos pv r caps m1 hnn hm1
      subst hm2
      exact h1
    | wb => simp [NonNull] at hnn
    | eol => simp [NonNull] at hnn
    | bol => simp [NonNull] at hnn

/-- Every character-consuming atom of the expression only accepts
characters satisfying P. -/
def ConsumedOK (ci : Bool) (P : Char → Prop) : RE → Prop
  | RE.eps => True
  | RE.cls neg items => ∀ c, clsMatch ci neg items c = true → P c
  | RE.concat a b => ConsumedOK ci P a ∧ ConsumedOK ci P b
  | RE.alt a b => ConsumedOK ci P a ∧ ConsumedOK ci P b
  | RE.star _ b => ConsumedOK ci P b
  | RE.group _ b => ConsumedOK ci P b
  | RE.wb => True
  | RE.eol => True
  | RE.bol => True

/-- Characters consumed by a match all satisfy P when every atom does. -/
theorem mall_consumed (ci : Bool) (P : Char → Prop) :
    ∀ (fuel : Nat) (re : RE) (pos : Nat) (pv : Option Char)
    (r : List Char) (caps : Caps) (m : MRes), ConsumedOK ci P re →
    m ∈ mall ci fuel re pos pv r caps → ∀ c ∈ r.take (m.pos - pos), P c := by
  intro fuel
  induction fuel with
  | zero =>
    intro re pos pv r caps m _ hm
    simp [mall] at hm
  | succ f ih =>
    intro re pos pv r caps m hok hm
    cases re with
    | eps =>
      simp [mall] at hm
      subst hm
      simp
    | cls neg items =>
      rcases r with _ | ⟨c0, rs⟩
      · simp [mall] at hm
      · simp only [mall] at hm
        split at hm
        · rename_i hmatch
          simp at hm
          subst hm
          simp only [MRes.pos]
          rw [show pos + 1 - pos = 1 by omega]
          intro c hc
          simp at hc
          subst hc
          exact hok _ hmatch
        · simp at hm
    | concat a b =>
      simp only [mall, List.mem_flatMap] at hm
      obtain ⟨m1, hm1, hm2⟩ := hm
      obtain ⟨k1, hk1, hp1, hr1⟩ := mall_suffix ci f a pos pv r caps m1 hm1
      obtain ⟨k2, hk2, hp2, hr2⟩ := mall_suffix ci f b m1.pos m1.pv m1.rest m1.caps m hm2
      have e1 : m1.pos - pos = k1 := by omega
      have e2 : m.pos - m1.pos = k2 := by omega
      have ih1 := ih a pos pv r caps m1 hok.1 hm1
      have ih2 := ih b m1.pos m1.pv m1.rest m1.caps m hok.2 hm2
      rw [e1] at ih1
      rw [e2, hr1] at ih2
      rw [show m.pos - pos = k1 + k2 by omega, List.take_add]
      intro c hc
      rcases List.mem_append.mp hc with h | h
      · exact ih1 c h
      · exact ih2 c h
    | alt a b =>
      simp only [mall, List.mem_append] at hm
      rcases hm with hm | hm
      · exact ih a pos pv r caps m hok.1 hm
      · exact ih b pos pv r caps m hok.2 hm
    | star lz body =>
      have hbase : m = (⟨pos, pv, r, caps⟩ : MRes) → ∀ c ∈ r.take (m.pos - pos), P c := by
        intro h
        subst h
        simp
      have hdeep : m ∈ (mall ci f body pos pv r caps).flatMap
          (fun m1 => if pos < m1.pos then
            mall ci f (RE.star lz body) m1.pos m1.pv m1.rest m1.caps else []) →
          ∀ c ∈ r.take (m.pos - pos), P c := by
        intro h
        rw [List.mem_flatMap] at h
        obtain ⟨m1, hm1, hm2⟩ := h
        split at hm2
        · obtain ⟨k1, hk1, hp1, hr1⟩ := mall_suffix ci f body pos pv r caps m1 hm1
          obtain ⟨k2, hk2, hp2, hr2⟩ :=
            mall_suffix ci f (RE.star lz body) m1.pos m1.pv m1.rest m1.caps m hm2
          have ih1 := ih body pos pv r caps m1 hok hm1
          have ih2 := ih (RE.star lz body) m1.pos m1.pv m1.rest m1.caps m hok hm2
          rw [show m1.pos - pos = k1 by omega] at ih1
          rw [show m.pos - m1.pos = k2 by omega, hr1] at ih2
          rw [show m.pos - pos = k1 + k2 by omega, List.take_add]
          intro c hc
          rcases List.mem_append.mp hc with h | h
          · exact ih1 c h
          · exact ih2 c h
        · simp at hm2
      simp only [mall] at hm
      split at hm
      · rcases List.mem_cons.mp hm with h | h
        · exact hbase h
        · exact hdeep h
      · rcases List.mem_append.mp hm with h | h
        · exact hdeep h
        · exact hbase (List.mem_singleton.mp h)
    | group g body =>
      simp only [mall, List.mem_map] at hm
      obtain ⟨m1, hm1, hm2⟩ := hm
      have ih1 := ih body pos pv r caps m1 hok hm1
      subst hm2
      exact ih1
    | wb =>
      simp only [mall] at hm
      split at hm
      · simp at hm; subst hm; simp
      · simp at hm
    | eol =>
      simp only [mall] at hm
      split at hm
      · simp at hm; subst hm; simp
      · simp at hm
    | bol =>
      simp only [mall] at hm
      split at hm
      · simp at hm; subst hm; simp
      · simp at hm

/-- The last character a match consumes satisfies P: the final atom of
every path accepts only P characters. -/
def LastOK (ci : Bool) (P : Char → Prop) : RE → Prop
  | RE.eps => True
  | RE.cls neg items => ∀ c, clsMatch ci neg items c = true → P c
  | RE.concat a b => LastOK ci P b ∧ (NonNull b = false → LastOK ci P a)
  | RE.alt a b => LastOK ci P a ∧ LastOK ci P b
  | RE.star _ b => LastOK ci P b
  | RE.group _ b => LastOK ci P b
  | RE.wb => True
  | RE.eol => True
  | RE.bol => True

/-- A consuming match of a LastOK expression ends in a P character. -/
theorem mall_lastc (ci : Bool) (P : Char → Prop) :
    ∀ (fuel : Nat) (re : RE) (pos : Nat) (pv : Option Char)
    (r : List Char) (caps : Caps) (m : MRes), LastOK ci P re →
    m ∈ mall ci fuel re pos pv r caps → pos < m.pos →
    ∃ c, (r.take (m.pos - pos)).getLast? = some c ∧ P c := by
  intro fuel
  induction fuel with
  | zero =>
    intro re pos pv r caps m _ hm
    simp [mall] at hm
  | succ f ih =>
    intro re pos pv r caps m hok hm hlt
    cases re with
    | eps =>
      simp [mall] at hm
      subst hm
      simp at hlt
    | cls neg items =>
      rcases r with _ | ⟨c0, rs⟩
      · simp [mall] at hm
      · simp only [mall] at hm
        split at hm
        · rename_i hmatch
          simp at hm
          subst hm
          simp only [MRes.pos]
          rw [show pos + 1 - pos = 1 by omega]
          exact ⟨c0, by simp, hok _ hmatch⟩
        · simp at hm
    | concat a b =>
      simp only [mall, List.mem_flatMap] at hm
      obtain ⟨m1, hm1, hm2⟩ := hm
      obtain ⟨k1, hk1, hp1, hr1⟩ := mall_suffix ci f a pos pv r caps m1 hm1
      obtain ⟨k2, hk2, hp2, hr2⟩ := mall_suffix ci f b m1.pos m1.pv m1.rest m1.caps m hm2
      by_cases hk2z : k2 = 0
      · have hnb : NonNull b = false := by
          by_contra hnb
          have := mall_progress ci f b m1.pos m1.pv m1.rest m1.caps m
            (by revert hnb; cases NonNull b <;> simp) hm2
          omega
        have hlt1 : pos < m1.pos := by omega
        obtain ⟨c, hc, hPc⟩ := ih a pos pv r caps m1 (hok.2 hnb) hm1 hlt1
        refine ⟨c, ?_, hPc⟩
        rw [show m.pos - pos = m1.pos - pos by omega]
        exact hc
      · obtain ⟨c, hc, hPc⟩ := ih b m1.pos m1.pv m1.rest m1.caps m hok.1 hm2 (by omega)
        refine ⟨c, ?_, hPc⟩
        rw [show m.pos - pos = k1 + k2 by omega, List.take_add]
        rw [show m.pos - m1.pos = k2 by omega, hr1] at hc
        rw [List.getLast?_append_of_ne_nil]
        · exact hc
        · have hlen : ((r.drop k1).take k2).length = k2 := by
            rw [List.length_take]
            rw [hr1, List.length_drop] at hk2
            rw [List.length_drop]
            omega
          intro hnil
          rw [hnil] at hlen
          simp at hlen
          omega
    | alt a b =>
      simp only [mall, List.mem_append] at hm
      rcases hm with hm | hm
      · exact ih a pos pv r caps m hok.1 hm hlt
      · exact ih b pos pv r caps m hok.2 hm hlt
    | star lz body =>
      have hdeep : m ∈ (mall ci f body pos pv r caps).flatMap
          (fun m1 => if pos < m1.pos then
            mall ci f (RE.star lz body) m1.pos m1.pv m1.rest m1.caps else []) →
          ∃ c, (r.take (m.pos - pos)).getLast? = some c ∧ P c := by
        intro h
        rw [List.mem_flatMap] at h
        obtain ⟨m1, hm1, hm2⟩ := h
        split at hm2
        · rename_i hprog
          obtain ⟨k1, hk1, hp1, hr1⟩ := mall_suffix ci f body pos pv r caps m1 hm1
          obtain ⟨k2, hk2, hp2, hr2⟩ :=
            mall_suffix ci f (RE.star lz body) m1.pos m1.pv m1.rest m1.caps m hm2
          by_cases hk2z : k2 = 0
          · obtain ⟨c, hc, hPc⟩ := ih body pos pv r caps m1 hok hm1 hprog
            refine ⟨c, ?_, hPc⟩
            rw [show m.pos - pos = m1.pos - pos by omega]
            exact hc
          · obtain ⟨c, hc, hPc⟩ :=
              ih (RE.star lz body) m1.pos m1.pv m1.rest m1.caps m hok hm2 (by omega)
            refine ⟨c, ?_, hPc⟩
            rw [show m.pos - pos = k1 + k2 by omega, List.take_add]
            rw [show m.pos - m1.pos = k2 by omega, hr1] at hc
            rw [List.getLast?_append_of_ne_nil]
            · exact hc
            · have hlen : ((r.drop k1).take k2).length = k2 := by
                rw [List.length_take]
                rw [hr1, List.length_drop] at hk2
                rw [List.length_drop]
                omega
              intro hnil
              rw [hnil] at hlen
              simp at hlen
              omega
        · simp at hm2
      simp only [mall] at hm
      split at hm
      · rcases List.mem_cons.mp hm with h | h
        · subst h; simp at hlt
        · exact hdeep h
      · rcases List.mem_append.mp hm with h | h
        · exact hdeep h
        · have := List.mem_singleton.mp h
          subst this
          simp at hlt
    | group g body =>
      simp only [mall, List.mem_map] at hm
      obtain ⟨m1, hm1, hm2⟩ := hm
      subst hm2
      exact ih body pos pv r caps m1 hok hm1 hlt
    | wb =>
      simp only [mall] at hm
      split at hm
      · simp at hm; subst hm; simp at hlt
      · simp at hm
    | eol =>
      simp only [mall] at hm
      split at hm
      · simp at hm; subst hm; simp at hlt
      · simp at hm
    | bol =>
      simp only [mall] at hm
      split at hm
      · simp at hm; subst hm; simp at hlt
      · simp at hm

/-- Q holds of every capture any run of a group body can record. -/
def GroupsOK (ci : Bool) (Q : Nat → List Char → List Char → Prop) : RE → Prop
  | RE.concat a b => GroupsOK ci Q a ∧ GroupsOK ci Q b
  | RE.alt a b => GroupsOK ci Q a ∧ GroupsOK ci Q b
  | RE.star _ b => GroupsOK ci Q b
  | RE.group g b =>
    (∀ (fuel pos : Nat) (pv : Option Char) (r : List Char) (caps : Caps) (m : MRes),
      m ∈ mall ci fuel b pos pv r caps → Q g r m.rest) ∧ GroupsOK ci Q b
  | _ => True

/-- Capture soundness: every entry of the capture list of a result
satisfies Q, provided the incoming entries did. -/
theorem mall_caps (ci : Bool) (Q : Nat → List Char → List Char → Prop) :
    ∀ (fuel : Nat) (re : RE) (pos : Nat) (pv : Option Char)
    (r : List Char) (caps : Caps) (m : MRes), GroupsOK ci Q re →
    (∀ e ∈ caps, Q e.1 e.2.1 e.2.2) → m ∈ mall ci fuel re pos pv r caps →
    ∀ e ∈ m.caps, Q e.1 e.2.1 e.2.2 := by
  intro fuel
  induction fuel with
  | zero =>
    intro re pos pv r caps m _ _ hm
    simp [mall] at hm
  | succ f ih =>
    intro re pos pv r caps m hok hcaps hm
    cases re with
    | eps =>
      simp [mall] at hm
      subst hm
      exact hcaps
    | cls neg items =>
      rcases r with _ | ⟨c0, rs⟩
      · simp [mall] at hm
      · simp only [mall] at hm
        split at hm
        · simp at hm
          subst hm
          exact hcaps
        · simp at hm
    | concat a b =>
      simp only [mall, List.mem_flatMap] at hm
      obtain ⟨m1, hm1, hm2⟩ := hm
      exact ih b m1.pos m1.pv m1.rest m1.caps m hok.2
        (ih a pos pv r caps m1 hok.1 hcaps hm1) hm2
    | alt a b =>
      simp only [mall, List.mem_append] at hm
      rcases hm with hm | hm
      · exact ih a pos pv r caps m hok.1 hcaps hm
      · exact ih b pos pv r caps m hok.2 hcaps hm
    | star lz body =>
      have hdeep : m ∈ (mall ci f body pos pv r caps).flatMap
          (fun m1 => if pos < m1.pos then
            mall ci f (RE.star lz body) m1.pos m1.pv m1.rest m1.caps else []) →
          ∀ e ∈ m.caps, Q e.1 e.2.1 e.2.2 := by
        intro h
        rw [List.mem_flatMap] at h
        obtain ⟨m1, hm1, hm2⟩ := h
        split at hm2
        · exact ih (RE.star lz body) m1.pos m1.pv m1.rest m1.caps m hok
            (ih body pos pv r caps m1 hok hcaps hm1) hm2
        · simp at hm2
      simp only [mall] at hm
      split at hm
      · rcases List.mem_cons.mp hm with h | h
        · subst h; exact hcaps
        · exact hdeep h
      · rcases List.mem_append.mp hm with h | h
        · exact hdeep h
        · have := List.mem_singleton.mp h
          subst this
          exact hcaps
    | group g body =>
      simp only [mall, List.mem_map] at hm
      obtain ⟨m1, hm1, hm2⟩ := hm
      subst hm2
      intro e he
      simp only [MRes.caps] at he
      rcases List.mem_cons.mp he with h | h
      · subst h
        exact hok.1 f pos pv r caps m1 hm1
      · exact ih body pos pv r caps m1 hok.2 hcaps hm1 e h
    | wb =>
      simp only [mall] at hm
      split at hm
      · simp at hm; subst hm; exact hcaps
      · simp at hm
    | eol =>
      simp only [mall] at hm
      split at hm
      · simp at hm; subst hm; exact hcaps
      · simp at hm
    | bol =>
      simp only [mall] at hm
      split at hm
      · simp at hm; subst hm; exact hcaps
      · simp at hm

/-- A successful lookup returns a recorded entry. -/
theorem capLookup_mem (g : Nat) : ∀ (caps : Caps) (rs re1 : List Char),
    capLookup g caps = some (rs, re1) → (g, rs, re1) ∈ caps := by
  intro caps
  induction caps with
  | nil => intro rs re1 h; simp [capLookup] at h
  | cons e t ih =>
    intro rs re1 h
    rcases e with ⟨g1, ers, ere⟩
    simp only [capLookup] at h
    split at h
    · rename_i hg
      simp at h
      subst hg
      rw [List.mem_cons]
      left
      simp [h.1, h.2]
    · exact List.mem_cons_of_mem _ (ih rs re1 h)

/-- Any result of the position scan is a matcher result started from an
empty capture list. -/
theorem searchFrom_sound (ci : Bool) (fuel : Nat) (re : RE) :
    ∀ (sf pos : Nat) (pv : Option Char) (r : List Char) (p : Nat) (m : MRes),
    searchFrom ci fuel re sf pos pv r = some (p, m) →
    ∃ (pos1 : Nat) (pv1 : Option Char) (r1 : List Char),
      m ∈ mall ci fuel re pos1 pv1 r1 [] := by
  intro sf
  induction sf with
  | zero =>
    intro pos pv r p m h
    simp [searchFrom] at h
  | succ sf ih =>
    intro pos pv r p m h
    simp only [searchFrom] at h
    rcases hh : (mall ci fuel re pos pv r []).head? with _ | m1
    · rw [hh] at h
      rcases r with _ | ⟨c, rs⟩
      · simp at h
      · exact ih (pos + 1) (some c) rs p m h
    · rw [hh] at h
      simp at h
      refine ⟨pos, pv, r, ?_⟩
      rw [← h.2]
      exact List.mem_of_mem_head? hh

/-! ## Stripping and character facts -/

theorem char_le_iff (a b : Char) : a ≤ b ↔ a.toNat ≤ b.toNat := Iff.rfl

/-- ASCII printable characters are not Python whitespace. -/
theorem isPySpace_false_of_bounds (c : Char) (h1 : 33 ≤ c.toNat) (h2 : c.toNat ≤ 132) :
    isPySpace c = false := by
  unfold isPySpace
  rw [decide_eq_false_iff_not]
  intro hmem
  simp only [List.mem_cons, List.not_mem_nil, or_false] at hmem
  omega

/-- Characters matched by the case-insensitive digit class are decimal
digits, hence not whitespace. -/
theorem digit_cls_nonspace (c : Char)
    (h : clsMatch true false [ClsItem.dig] c = true) : isPySpace c = false := by
  have hA : ('A').toNat = 65 := rfl
  have hZ : ('Z').toNat = 90 := rfl
  have ha : ('a').toNat = 97 := rfl
  have hz : ('z').toNat = 122 := rfl
  have h0 : ('0').toNat = 48 := rfl
  have h9 : ('9').toNat = 57 := rfl
  by_cases hAZ : 'A' ≤ c ∧ c ≤ 'Z'
  · rw [char_le_iff, hA] at hAZ
    rw [char_le_iff, hZ] at hAZ
    exact isPySpace_false_of_bounds c (by omega) (by omega)
  · by_cases haz : 'a' ≤ c ∧ c ≤ 'z'
    · rw [char_le_iff, ha] at haz
      rw [char_le_iff, hz] at haz
      exact isPySpace_false_of_bounds c (by omega) (by omega)
    · have hl : charLower c = c := by unfold charLower; rw [if_neg hAZ]
      have hu : charUpper c = c := by unfold charUpper; rw [if_neg haz]
      have hd : isDig c = true := by
        by_contra hd
        rw [Bool.not_eq_true] at hd
        simp [clsMatch, itemMatch, hl, hu, hd] at h
      unfold isDig at hd
      rw [decide_eq_true_eq] at hd
      obtain ⟨hd1, hd2⟩ := hd
      rw [char_le_iff, h0] at hd1
      rw [char_le_iff, h9] at hd2
      exact isPySpace_false_of_bounds c (by omega) (by omega)

/-- Strip of a list ending in a non-space character is non-empty. -/
theorem trimChars_ne_nil_of_last (l : List Char) (c : Char)
    (hlast : l.getLast? = some c) (hc : isPySpace c = false) : trimChars l ≠ [] := by
  have hstep : ∀ (l1 : List Char), l1.getLast? = some c →
      (l1.dropWhile isPySpace) ≠ [] ∧ (l1.dropWhile isPySpace).getLast? = some c := by
    intro l1
    induction l1 with
    | nil => intro h; simp at h
    | cons a t iht =>
      intro h
      cases t with
      | nil =>
        simp at h
        subst h
        rw [List.dropWhile_cons, if_neg (by simp [hc])]
        exact ⟨by simp, by simp⟩
      | cons b t2 =>
        have hlast2 : (b :: t2).getLast? = some c := by
          rw [List.getLast?_cons_cons] at h
          exact h
        rw [List.dropWhile_cons]
        split
        · exact iht hlast2
        · refine ⟨by simp, ?_⟩
          rw [List.getLast?_cons_cons]
          exact hlast2
  obtain ⟨h1, h2⟩ := hstep l hlast
  unfold trimChars
  intro hnil
  rw [List.reverse_eq_nil_iff] at hnil
  have hhead : (l.dropWhile isPySpace).reverse.head? = some c := by
    rw [List.head?_reverse]
    exact h2
  rcases hr : (l.dropWhile isPySpace).reverse with _ | ⟨x, xs⟩
  · rw [hr] at hhead; simp at hhead
  · rw [hr] at hnil hhead
    simp at hhead
    subst hhead
    rw [List.dropWhile_cons, if_neg (by simp [hc])] at hnil
    simp at hnil

/-- Strip of a non-empty list of non-space characters is itself. -/
theorem trimChars_eq_self (l : List Char) (h : ∀ c ∈ l, isPySpace c = false) :
    trimChars l = l := by
  have h1 : l.dropWhile isPySpace = l := by
    rcases l with _ | ⟨a, t⟩
    · rfl
    · rw [List.dropWhile_cons, if_neg (by simp [h a (by simp)])]
  unfold trimChars
  rw [h1]
  have h2 : l.reverse.dropWhile isPySpace = l.reverse := by
    rcases hr : l.reverse with _ | ⟨a, t⟩
    · rfl
    · rw [List.dropWhile_cons, if_neg ?_]
      have : a ∈ l := by
        rw [← List.mem_reverse, hr]
        simp
      simp [h a this]
  rw [h2, List.reverse_reverse]

theorem capSlice_drop (r : List Char) (k : Nat) (hk : k ≤ r.length) :
    capSlice r (r.drop k) = r.take k := by
  unfold capSlice
  rw [List.length_drop]
  congr 1
  omega

/-- A non-nullable group body always captures at least one character. -/
theorem capQ_nonempty (ci : Bool) (b : RE) (hnn : NonNull b = true) :
    ∀ (fuel pos : Nat) (pv : Option Char) (r : List Char) (caps : Caps) (m : MRes),
    m ∈ mall ci fuel b pos pv r caps → capSlice r m.rest ≠ [] := by
  intro fuel pos pv r caps m hm
  obtain ⟨k, hk, hp, hr⟩ := mall_suffix ci fuel b pos pv r caps m hm
  have hprog := mall_progress ci fuel b pos pv r caps m hnn hm
  rw [hr, capSlice_drop r k hk]
  intro hnil
  have hlen := congrArg List.length hnil
  rw [List.length_take, List.length_nil] at hlen
  omega

/-- A non-nullable group body whose final atoms accept only non-space
characters captures text that strips to something non-empty. -/
theorem capQ_trim_nonempty (ci : Bool) (b : RE) (hnn : NonNull b = true)
    (hlast : LastOK ci (fun c => isPySpace c = false) b) :
    ∀ (fuel pos : Nat) (pv : Option Char) (r : List Char) (caps : Caps) (m : MRes),
    m ∈ mall ci fuel b pos pv r caps → trimChars (capSlice r m.rest) ≠ [] := by
  intro fuel pos pv r caps m hm
  obtain ⟨k, hk, hp, hr⟩ := mall_suffix ci fuel b pos pv r caps m hm
  have hprog := mall_progress ci fuel b pos pv r caps m hnn hm
  obtain ⟨c, hc, hPc⟩ := mall_lastc ci (fun c => isPySpace c = false)
    fuel b pos pv r caps m hlast hm hprog
  rw [hr, capSlice_drop r k hk]
  rw [show m.pos - pos = k by omega] at hc
  exact trimChars_ne_nil_of_last _ c hc hPc

/-- Expressions without capture groups. -/
def NoGroup : RE → Bool
  | RE.concat a b => NoGroup a && NoGroup b
  | RE.alt a b => NoGroup a && NoGroup b
  | RE.star _ b => NoGroup b
  | RE.group _ _ => false
  | _ => true

theorem groupsOK_of_noGroup (ci : Bool) (Q : Nat → List Char → List Char → Prop) :
    ∀ (re : RE), NoGroup re = true → GroupsOK ci Q re := by
  intro re
  induction re with
  | eps => intro _; trivial
  | cls neg items => intro _; trivial
  | concat a b iha ihb =>
    intro h
    rw [NoGroup, Bool.and_eq_true] at h
    exact ⟨iha h.1, ihb h.2⟩
  | alt a b iha ihb =>
    intro h
    rw [NoGroup, Bool.and_eq_true] at h
    exact ⟨iha h.1, ihb h.2⟩
  | star lz b ihb =>
    intro h
    exact ihb h
  | group g b ihb => intro h; simp [NoGroup] at h
  | wb => intro _; trivial
  | eol => intro _; trivial
  | bol => intro _; trivial

/-- Transfer the capture invariant through a search. -/
theorem search_cap_of (ci : Bool) (re : RE) (Q : Nat → List Char → List Char → Prop)
    (hok : GroupsOK ci Q re) (s : List Char) (p : Nat) (m : MRes)
    (hs : reSearch ci re s = some (p, m)) (g : Nat) (l1 l2 : List Char)
    (hcap : capLookup g m.caps = some (l1, l2)) : Q g l1 l2 := by
  unfold reSearch at hs
  obtain ⟨pos1, pv1, r1, hm⟩ := searchFrom_sound ci _ re _ _ _ _ _ _ hs
  exact mall_caps ci Q _ re pos1 pv1 r1 [] m hok (by simp) hm
    (g, l1, l2) (capLookup_mem g m.caps l1 l2 hcap)

theorem lastOK_of_nonnull_right {ci : Bool} {P : Char → Prop} {a b : RE}
    (hb : LastOK ci P b) (hnn : NonNull b = true) : LastOK ci P (RE.concat a b) :=
  ⟨hb, fun hf => by rw [hnn] at hf; cases hf⟩

theorem lastOK_concat_both {ci : Bool} {P : Char → Prop} {a b : RE}
    (hb : LastOK ci P b) (ha : LastOK ci P a) : LastOK ci P (RE.concat a b) :=
  ⟨hb, fun _ => ha⟩

/-- The bare invoice-number group ends in a digit, so its capture strips
to something non-empty. -/
theorem invoiceRE2_body_lastOK : LastOK true (fun c => isPySpace c = false)
    (catR [repN 2 azCls, upToG 3 azCls,
      optG (RE.cls false [ClsItem.one '-', ClsItem.spc]), repN 4 dR, starG dR]) := by
  have hd : LastOK true (fun c => isPySpace c = false) dR :=
    fun c h => digit_cls_nonspace c h
  have hrep : ∀ n, LastOK true (fun c => isPySpace c = false) (repN n dR) ∧
      (1 ≤ n → NonNull (repN n dR) = true) := by
    intro n
    induction n with
    | zero => exact ⟨trivial, fun h => absurd h (by decide)⟩
    | succ k ihk =>
      constructor
      · rcases Nat.eq_zero_or_pos k with hk | hk
        · subst hk
          exact lastOK_concat_both trivial hd
        · exact lastOK_of_nonnull_right ihk.1 (ihk.2 hk)
      · intro _
        rw [repN]
        show (NonNull dR || NonNull (repN k dR)) = true
        rw [show NonNull dR = true from rfl]
        simp
  have h4 : LastOK true (fun c => isPySpace c = false)
      (RE.concat (repN 4 dR) (starG dR)) :=
    lastOK_concat_both hd (hrep 4).1
  have hnn4 : NonNull (RE.concat (repN 4 dR) (starG dR)) = true :=
    of_decide_eq_true rfl
  have h3 : LastOK true (fun c => isPySpace c = false)
      (RE.concat (optG (RE.cls false [ClsItem.one '-', ClsItem.spc]))
        (RE.concat (repN 4 dR) (starG dR))) :=
    lastOK_of_nonnull_right h4 (of_decide_eq_true rfl)
  have h2 : LastOK true (fun c => isPySpace c = false)
      (RE.concat (upToG 3 azCls)
        (RE.concat (optG (RE.cls false [ClsItem.one '-', ClsItem.spc]))
          (RE.concat (repN 4 dR) (starG dR)))) :=
    lastOK_of_nonnull_right h3 (of_decide_eq_true rfl)
  exact lastOK_of_nonnull_right h2 (of_decide_eq_true rfl)

/-- Capture non-emptiness invariant, as recorded for group one. -/
def QCapNe : Nat → List Char → List Char → Prop :=
  fun g rs re1 => g = 1 → capSlice rs re1 ≠ []

/-- Capture strip-non-emptiness invariant for group one. -/
def QCapTrimNe : Nat → List Char → List Char → Prop :=
  fun g rs re1 => g = 1 → trimChars (capSlice rs re1) ≠ []

theorem dateRE1_groupsOK : GroupsOK true QCapNe dateRE1 := by
  simp only [dateRE1, catR]
  exact ⟨groupsOK_of_noGroup _ _ _ (of_decide_eq_true rfl),
    groupsOK_of_noGroup _ _ _ (of_decide_eq_true rfl),
    fun fuel pos pv r caps m hm _ =>
      capQ_nonempty true _ (by exact of_decide_eq_true rfl) fuel pos pv r caps m hm,
    groupsOK_of_noGroup _ _ _ (of_decide_eq_true rfl)⟩

theorem dateRE2_groupsOK : GroupsOK true QCapNe dateRE2 := by
  simp only [dateRE2, catR]
  exact ⟨groupsOK_of_noGroup _ _ _ (of_decide_eq_true rfl),
    groupsOK_of_noGroup _ _ _ (of_decide_eq_true rfl),
    fun fuel pos pv r caps m hm _ =>
      capQ_nonempty true _ (by exact of_decide_eq_true rfl) fuel pos pv r caps m hm,
    groupsOK_of_noGroup _ _ _ (of_decide_eq_true rfl)⟩

theorem dateRE3_groupsOK : GroupsOK true QCapNe dateRE3 := by
  simp only [dateRE3, catR]
  exact ⟨trivial,
    ⟨fun fuel pos pv r caps m hm _ =>
      capQ_nonempty true _ (by exact of_decide_eq_true rfl) fuel pos pv r caps m hm,
     groupsOK_of_noGroup _ _ _ (of_decide_eq_true rfl)⟩,
    trivial⟩

theorem currencyRE_groupsOK : GroupsOK false QCapNe currencyRE := by
  simp only [currencyRE]
  exact ⟨fun fuel pos pv r caps m hm _ =>
      capQ_nonempty false _ (by exact of_decide_eq_true rfl) fuel pos pv r caps m hm,
    groupsOK_of_noGroup _ _ _ (of_decide_eq_true rfl)⟩

theorem invoiceRE2_groupsOK : GroupsOK true QCapTrimNe invoiceRE2 := by
  simp only [invoiceRE2, catR]
  exact ⟨trivial,
    ⟨fun fuel pos pv r caps m hm _ =>
      capQ_trim_nonempty true _ (by exact of_decide_eq_true rfl) invoiceRE2_body_lastOK
        fuel pos pv r caps m hm,
     groupsOK_of_noGroup _ _ _ (of_decide_eq_true rfl)⟩,
    trivial⟩

theorem head?_dropWhile_false (p : Char → Bool) :
    ∀ (l : List Char) (c : Char), (l.dropWhile p).head? = some c → p c = false := by
  intro l
  induction l with
  | nil => intro c h; simp at h
  | cons a t ih =>
    intro c h
    rw [List.dropWhile_cons] at h
    split at h
    · exact ih c h
    · simp at h
      subst h
      rename_i hp
      simp at hp
      exact hp

theorem dropWhile_eq_self_of_head (p : Char → Bool) (l : List Char)
    (h : ∀ c, l.head? = some c → p c = false) : l.dropWhile p = l := by
  cases l with
  | nil => rfl
  | cons a t => rw [List.dropWhile_cons, if_neg (by simp [h a rfl])]

theorem getLast?_of_suffix {l2 l3 : List Char} (h : l2 <:+ l3) (hne : l2 ≠ []) :
    l2.getLast? = l3.getLast? := by
  obtain ⟨pre, hpre⟩ := h
  rw [← hpre, List.getLast?_append_of_ne_nil _ hne]

/-- Stripping is idempotent. -/
theorem trimChars_idem (l : List Char) : trimChars (trimChars l) = trimChars l := by
  rcases ht : trimChars l with _ | ⟨a, t⟩
  · rfl
  · rw [← ht]
    have hA : ∀ c, (trimChars l).head? = some c → isPySpace c = false := by
      intro c hc
      have h1 : (trimChars l).reverse.getLast? = some c := by
        rw [List.getLast?_reverse]
        exact hc
      have h2 : (trimChars l).reverse = (l.dropWhile isPySpace).reverse.dropWhile isPySpace := by
        unfold trimChars
        rw [List.reverse_reverse]
      rw [h2] at h1
      have h3 : (l.dropWhile isPySpace).reverse.dropWhile isPySpace <:+
          (l.dropWhile isPySpace).reverse := List.dropWhile_suffix _
      have hne2 : (l.dropWhile isPySpace).reverse.dropWhile isPySpace ≠ [] := by
        intro hx
        rw [hx] at h1
        simp at h1
      rw [getLast?_of_suffix h3 hne2, List.getLast?_reverse] at h1
      exact head?_dropWhile_false isPySpace l c h1
    have hB : ∀ c, (trimChars l).getLast? = some c → isPySpace c = false := by
      intro c hc
      have h1 : (trimChars l).reverse.head? = some c := by
        rw [List.head?_reverse]
        exact hc
      have h2 : (trimChars l).reverse = (l.dropWhile isPySpace).reverse.dropWhile isPySpace := by
        unfold trimChars
        rw [List.reverse_reverse]
      rw [h2] at h1
      exact head?_dropWhile_false isPySpace _ c h1
    have hstep1 : (trimChars l).dropWhile isPySpace = trimChars l :=
      dropWhile_eq_self_of_head _ _ hA
    have hstep2 : (trimChars l).reverse.dropWhile isPySpace = (trimChars l).reverse :=
      dropWhile_eq_self_of_head _ _ (by
        intro c hc
        rw [List.head?_reverse] at hc
        exact hB c hc)
    calc trimChars (trimChars l)
        = (((trimChars l).dropWhile isPySpace).reverse.dropWhile isPySpace).reverse := rfl
      _ = ((trimChars l).reverse.dropWhile isPySpace).reverse := by rw [hstep1]
      _ = (trimChars l).reverse.reverse := by rw [hstep2]
      _ = trimChars l := List.reverse_reverse _

/-- Strings produced from non-empty capture slices are non-empty. -/
theorem string_mk_ne_empty (l : List Char) (h : l ≠ []) : String.mk l ≠ "" := by
  intro he
  rw [String.ext_iff] at he
  exact h he

/-- A first-match extraction over a pattern whose group-one captures
strip non-empty never returns the empty string. -/
theorem efm_ne_of_groupsOK (ci : Bool) (re : RE)
    (hok : GroupsOK ci QCapTrimNe re) (text : String) (s : String)
    (h : _extract_first_match ci re text = some s) : s ≠ "" := by
  unfold _extract_first_match at h
  split at h
  · rename_i p m hs
    rw [Option.map_eq_some'] at h
    obtain ⟨gl, hgl, hms⟩ := h
    unfold groupCap at hgl
    rw [Option.map_eq_some'] at hgl
    obtain ⟨⟨l1, l2⟩, hcap, hslice⟩ := hgl
    have hq := search_cap_of ci re QCapTrimNe hok text.data p m hs 1 l1 l2 hcap
    have htr : trimChars (capSlice l1 l2) ≠ [] := hq rfl
    subst hms
    apply string_mk_ne_empty
    have hslice2 : capSlice l1 l2 = gl := hslice
    rw [← hslice2]
    exact htr
  · simp at h

/-- The currency field is never the empty string. -/
theorem currencyOf_ne (text : String) (s : String)
    (h : currencyOf text = some s) : s ≠ "" := by
  unfold currencyOf at h
  split at h
  · rename_i p m hs
    rw [Option.map_eq_some'] at h
    obtain ⟨gl, hgl, hms⟩ := h
    unfold groupCap at hgl
    rw [Option.map_eq_some'] at hgl
    obtain ⟨⟨l1, l2⟩, hcap, hslice⟩ := hgl
    have hq := search_cap_of false currencyRE QCapNe currencyRE_groupsOK
      text.data p m hs 1 l1 l2 hcap
    subst hms
    apply string_mk_ne_empty
    rw [← hslice]
    exact hq rfl
  · simp at h

/-- The raw matched date substring is never empty. -/
theorem dateStrOf_ne_nil (text : String) (l : List Char)
    (h : dateStrOf text = some l) : l ≠ [] := by
  unfold dateStrOf at h
  split at h
  · rename_i p m hs
    unfold groupCap at h
    rw [Option.map_eq_some'] at h
    obtain ⟨⟨l1, l2⟩, hcap, hslice⟩ := h
    have hq := search_cap_of true dateRE1 QCapNe dateRE1_groupsOK
      text.data p m hs 1 l1 l2 hcap
    rw [← hslice]
    exact hq rfl
  · split at h
    · rename_i p m hs
      unfold groupCap at h
      rw [Option.map_eq_some'] at h
      obtain ⟨⟨l1, l2⟩, hcap, hslice⟩ := h
      have hq := search_cap_of true dateRE2 QCapNe dateRE2_groupsOK
        text.data p m hs 1 l1 l2 hcap
      rw [← hslice]
      exact hq rfl
    · split at h
      · rename_i p m hs
        unfold groupCap at h
        rw [Option.map_eq_some'] at h
        obtain ⟨⟨l1, l2⟩, hcap, hslice⟩ := h
        have hq := search_cap_of true dateRE3 QCapNe dateRE3_groupsOK
          text.data p m hs 1 l1 l2 hcap
        rw [← hslice]
        exact hq rfl
      · simp at h

/-- Python or of optional strings is non-empty when the right operand
always is. -/
theorem pyOrStr_ne (a b : Option String)
    (hb : ∀ t, b = some t → t ≠ "") (s : String) (h : pyOrStr a b = some s) : s ≠ "" := by
  unfold pyOrStr at h
  split at h
  · rename_i sa
    split at h
    · exact hb s h
    · rename_i hne
      simp at h
      subst h
      exact hne
  · exact hb s h

/-- The vendor scan only returns lines longer than two characters. -/
theorem vendorScanLoop_ne : ∀ (lines : List (List Char)) (v : String),
    vendorScanLoop lines = some v → v ≠ "" := by
  intro lines
  induction lines with
  | nil => intro v h; simp [vendorScanLoop] at h
  | cons l rest ih =>
    intro v h
    unfold vendorScanLoop at h
    simp only [] at h
    split at h
    · exact ih v h
    · split at h
      · exact ih v h
      · split at h
        · exact ih v h
        · split at h
          · rename_i hlen
            simp at h
            subst h
            apply string_mk_ne_empty
            intro hnil
            rw [hnil] at hlen
            simp at hlen
          · exact ih v h

/-- Lines produced by segmentation are non-empty. -/
theorem linesOf_ne_nil (text : String) : ∀ l ∈ linesOf text, l ≠ [] := by
  intro l hl
  unfold linesOf at hl
  rw [List.mem_filter] at hl
  intro hnil
  rw [hnil] at hl
  simp at hl

/-- The vendor field is never the empty string. -/
theorem vendor_ne (text : String) (v : String)
    (h : _extract_vendor text (linesOf text) = some v) : v ≠ "" := by
  have hfall : ∀ w, vendorFallback (linesOf text) = some w → w ≠ "" := by
    intro w hw
    unfold vendorFallback at hw
    split at hw
    · rename_i v1 hv1
      simp at hw
      subst hw
      exact vendorScanLoop_ne _ _ hv1
    · split at hw
      · simp at hw
      · rename_i l0 rest hlines
        simp at hw
        subst hw
        apply string_mk_ne_empty
        exact linesOf_ne_nil text l0 (by rw [hlines]; simp)
  unfold _extract_vendor at h
  split at h
  · rename_i p m hs
    split at h
    · rename_i g hg
      simp only [] at h
      split at h
      · rename_i hlen
        simp at h
        subst h
        apply string_mk_ne_empty
        intro hnil
        rw [hnil] at hlen
        simp at hlen
      · exact hfall v h
    · exact hfall v h
  · exact hfall v h

/-- The invoice-number field is never the empty string. -/
theorem invoiceNumberOf_ne (text : String) (s : String)
    (h : invoiceNumberOf text = some s) : s ≠ "" := by
  have hraw : ∀ t, rawInvoiceOf text = some t → t ≠ "" := by
    intro t ht
    unfold rawInvoiceOf at ht
    exact pyOrStr_ne _ _
      (fun u hu => efm_ne_of_groupsOK true invoiceRE2 invoiceRE2_groupsOK text u hu) t ht
  unfold invoiceNumberOf at h
  split at h
  · rename_i s0 hs0
    split at h
    · simp at h
    · simp at h
      subst h
      exact hraw s0 hs0
  · simp at h

/-- The date field is never the empty string. -/
theorem date_field_ne (text : String) (s : String)
    (h : (extract_fields_from_text text).date = some s) : s ≠ "" := by
  simp only [extract_fields_from_text] at h
  refine pyOrStr_ne _ _ ?_ s h
  intro t ht
  rw [Option.map_eq_some'] at ht
  obtain ⟨l, hl, hmk⟩ := ht
  subst hmk
  exact string_mk_ne_empty l (dateStrOf_ne_nil text l hl)

/-- Extracted line items carry non-empty, already-stripped descriptions. -/
theorem lineItems_desc (text : String) :
    ∀ li ∈ (extract_fields_from_text text).line_items,
      li.description ≠ "" ∧ pyStrip li.description = li.description := by
  intro li hli
  have hli2 : li ∈ lineItemsOf (linesOf text) := by
    simp only [extract_fields_from_text] at hli
    exact hli
  unfold lineItemsOf at hli2
  rw [List.mem_flatMap] at hli2
  obtain ⟨line, hline, hmem⟩ := hli2
  split at hmem
  · split at hmem
    · split at hmem
      · split at hmem
        · rename_i desc amt hdesc hamt oq q hq hlen
          rw [List.mem_singleton] at hmem
          subst hmem
          have hne : trimChars desc ≠ [] := by
            intro hnil
            rw [hnil] at hlen
            simp at hlen
          constructor
          · exact string_mk_ne_empty _ hne
          · show pyStrip (String.mk (trimChars desc)) = String.mk (trimChars desc)
            unfold pyStrip
            rw [show (String.mk (trimChars desc)).data = trimChars desc from rfl]
            rw [trimChars_idem]
        · simp at hmem
      · simp at hmem
    · simp at hmem
  · simp at hmem

/-- C10.  Every string field of an extracted field set is either absent
or non-empty: vendor, invoice number, date and currency are never the
empty string, and every line item has a non-empty stripped description. -/
theorem c10_extracted_strings_nonempty (text : String) :
    (extract_fields_from_text text).vendor ≠ some "" ∧
    (extract_fields_from_text text).invoice_number ≠ some "" ∧
    (extract_fields_from_text text).date ≠ some "" ∧
    (extract_fields_from_text text).currency ≠ some "" ∧
    ∀ li ∈ (extract_fields_from_text text).line_items,
      li.description ≠ "" ∧ pyStrip li.description = li.description := by
  refine ⟨?_, ?_, ?_, ?_, lineItems_desc text⟩
  · intro h
    simp only [extract_fields_from_text] at h
    exact vendor_ne text "" h rfl
  · intro h
    simp only [extract_fields_from_text] at h
    exact invoiceNumberOf_ne text "" h rfl
  · intro h
    exact date_field_ne text "" h rfl
  · intro h
    simp only [extract_fields_from_text] at h
    exact currencyOf_ne text "" h rfl

theorem c10_extracted_strings_nonempty_witness :
    (extract_fields_from_text "Invoice #INV-7\nWidget 5.00").invoice_number ≠ some "" ∧
    (("Widget" : String) ≠ "" ∧ pyStrip "Widget" = "Widget") := by
  have h := c10_extracted_strings_nonempty "Invoice #INV-7\nWidget 5.00"
  exact ⟨h.2.1, h.2.2.2.2 ⟨"Widget", 5⟩ (of_decide_eq_true rfl)⟩
